import Mathlib

/-!
Verification of the LatchOrchestrationPOC workflow orchestrator.

This file gives a shallow embedding of the Python sources
(`src/constraints.py`, `src/workflow.py`, `src/orchestrator.py`) and proves
properties of the embedded code.  The embedding follows the source line by
line:

* Python values flowing through inputs/outputs are modelled by `Value`
  (with Python truthiness as `Value.truthy`);
* Python dicts keyed by task id become insertion-ordered association lists
  (`alookup` / `aset` mirror `d[k]` reads and writes);
* the per-`(wf_id, task_id)` dictionaries of the orchestrator are embedded
  for a single fixed workflow (different workflows never share state in the
  source, each key is a `(wf_id, task_id)` pair, so the restriction to one
  workflow is faithful);
* opaque task bodies (`task.func`) are modelled as scripts: a list of calls
  into the orchestrator handle (`spawn_task` / `complete_task`, each
  optionally wrapped in a swallowing `try/except`) followed by either a
  normal return value or a raised exception;
* raised Python exceptions become explicit `PyExc` results; state mutated
  before a raise stays mutated, exactly as in Python, so every operation
  returns the mutated state together with an optional exception;
* the two unbounded `while` loops of the scheduler take an explicit fuel
  argument; running out of fuel is reported as a distinct result so no
  theorem confuses it with normal termination.

Ghost instrumentation: the `events` field of the orchestrator state records
observations (body invocations, status changes, queue insertions that
violate dependency order, successful spawns, raised aborts).  Events are
only appended, never read by the embedded code, so they do not alter the
modelled behaviour.
-/

namespace LatchOrch

/-! ### Python values and truthiness -/

inductive Value where
  | vnone : Value
  | vint : Int → Value
  | vstr : String → Value
  | vlist : List Value → Value

/-- Python truthiness (`if p_output:` etc.) for the modelled values. -/
def Value.truthy : Value → Bool
  | .vnone => false
  | .vint n => n != 0
  | .vstr s => s != ""
  | .vlist l => !l.isEmpty

/-! ### Association lists standing for insertion-ordered Python dicts -/

/-- `d.get(k)` / `d[k]` read: first binding of `k`. -/
def alookup {α : Type} : List (String × α) → String → Option α
  | [], _ => none
  | p :: rest, k => if p.1 = k then some p.2 else alookup rest k

/-- `d[k] = v` write: overwrite in place if present, else append (Python
dicts keep insertion order and appending a fresh key preserves it). -/
def aset {α : Type} (l : List (String × α)) (k : String) (v : α) :
    List (String × α) :=
  if (alookup l k).isSome then
    l.map (fun p => if p.1 = k then (k, v) else p)
  else
    l ++ [(k, v)]

/-! ### Constraint records (`src/constraints.py`) -/

structure TaskConstraints where
  max_spawn_count : Option Int
  valid_next_nodes_policy : String
  valid_next_nodes : List String
  valid_previous_nodes_policy : String
  valid_previous_nodes : List String
  valid_incoming_edges_policy : String
  valid_incoming_edges : List (String × String)
  valid_outgoing_edges_policy : String
  valid_outgoing_edges : List (String × String)
deriving DecidableEq, Repr

/-- Default-constructed record, as `TaskConstraints()` in Python. -/
def TaskConstraints.default : TaskConstraints :=
  ⟨none, "allow_all", [], "allow_all", [], "allow_all", [], "allow_all", []⟩

/-- `TaskConstraints.validate_policy_values`. -/
def validate_policy_values (c : TaskConstraints) : Except String Unit :=
  let valid_policies := ["allow_all", "allow_none", "custom"]
  if !(valid_policies.contains c.valid_next_nodes_policy) then
    .error "valid_next_nodes_policy must be one of the valid policies"
  else if !(valid_policies.contains c.valid_previous_nodes_policy) then
    .error "valid_previous_nodes_policy must be one of the valid policies"
  else if !(valid_policies.contains c.valid_incoming_edges_policy) then
    .error "valid_incoming_edges_policy must be one of the valid policies"
  else if !(valid_policies.contains c.valid_outgoing_edges_policy) then
    .error "valid_outgoing_edges_policy must be one of the valid policies"
  else .ok ()

/-- `TaskConstraints.validate_policy_nodes`. -/
def validate_policy_nodes (c : TaskConstraints) : Except String Unit :=
  if c.valid_next_nodes_policy == "allow_none" && !c.valid_next_nodes.isEmpty then
    .error "allow_none valid_next_nodes_policy cannot take a list of valid_next_nodes"
  else if c.valid_next_nodes_policy == "custom" && c.valid_next_nodes.isEmpty then
    .error "custom valid_next_nodes_policy policy requires a list of valid_next_nodes"
  else if c.valid_previous_nodes_policy == "allow_none" && !c.valid_previous_nodes.isEmpty then
    .error "allow_none valid_previous_nodes_policy cannot take a list of valid_previous_nodes"
  else if c.valid_previous_nodes_policy == "custom" && c.valid_previous_nodes.isEmpty then
    .error "custom valid_previous_nodes_policy policy requires a list of valid_previous_nodes"
  else if c.valid_incoming_edges_policy == "allow_none" && !c.valid_incoming_edges.isEmpty then
    .error "allow_none valid_incoming_edges_policy cannot take a list of valid_incoming_edges"
  else if c.valid_incoming_edges_policy == "custom" && c.valid_incoming_edges.isEmpty then
    .error "custom valid_incoming_edges_policy policy requires a list of valid_incoming_edges"
  else if c.valid_outgoing_edges_policy == "allow_none" && !c.valid_outgoing_edges.isEmpty then
    .error "allow_none valid_outgoing_edges_policy cannot take a list of valid_outgoing_edges"
  else if c.valid_outgoing_edges_policy == "custom" && c.valid_outgoing_edges.isEmpty then
    .error "custom valid_outgoing_edges_policy policy requires a list of valid_outgoing_edges"
  else .ok ()

/-- `TaskConstraints.validate`.  The guard mirrors Python's
`if self.max_spawn_count and self.max_spawn_count < 0` including the
truthiness of the optional integer (`None` and `0` are falsy). -/
def TaskConstraints.validate (c : TaskConstraints) : Except String Unit :=
  if (match c.max_spawn_count with
      | some k => k != 0 && k < 0
      | none => false) then
    .error "max_spawn_count must be >= 0"
  else
    match validate_policy_values c with
    | .error e => .error e
    | .ok _ => validate_policy_nodes c

/-- `TaskConstraints.__init__`: the constructor stores the fields and runs
`validate`; a validation error prevents construction. -/
def TaskConstraints.make (c : TaskConstraints) : Except String TaskConstraints :=
  match c.validate with
  | .error e => .error e
  | .ok _ => .ok c

/-! ### Tasks and scripted task bodies

`Task.func` is an opaque Python callable receiving
`(wf_id, task_id, inputs, orchestrator)`.  It is modelled as a script of
calls on the orchestrator handle followed by an outcome.  A command's
`swallow` flag models the body wrapping that one call in `try/except: pass`;
without it a raised exception propagates out of the body, as in Python. -/

inductive BodyOutcome where
  | ret : Value → BodyOutcome
  | raiseExc : BodyOutcome

mutual
inductive Task where
  | mk (task_id : String) (body : Body) (constraints : TaskConstraints) : Task

inductive Body where
  | mk (cmds : List BodyCmd) (outcome : BodyOutcome) : Body

inductive BodyCmd where
  | spawnCmd (creator_task_id : String) (new_task : Task)
      (new_edges : List (String × String)) (input_data : Option Value)
      (skip_visual_edge : Bool) (swallow : Bool) : BodyCmd
  | completeCmd (target : String) (result : Value) (swallow : Bool) : BodyCmd
end

def Task.task_id : Task → String
  | .mk i _ _ => i

def Task.body : Task → Body
  | .mk _ b _ => b

def Task.constraints : Task → TaskConstraints
  | .mk _ _ c => c

def Body.cmds : Body → List BodyCmd
  | .mk c _ => c

def Body.outcome : Body → BodyOutcome
  | .mk _ o => o

/-! ### Policy checks (`src/workflow.py`) -/

/-- `check_node_against_policy(taskA, taskB, direction)`.  Python returns
`None` on admission and raises `RuntimeError` on rejection; an unknown
policy string falls through and admits. -/
def check_node_against_policy (taskA taskB : Task) (direction : String) :
    Except String Unit :=
  if direction == "next" then
    let policy := taskA.constraints.valid_next_nodes_policy
    if policy == "allow_all" then .ok ()
    else if policy == "allow_none" then
      .error s!"Task {taskA.task_id} cannot spawn any child nodes."
    else if policy == "custom" then
      if !(taskA.constraints.valid_next_nodes.contains taskB.task_id) then
        .error s!"Task {taskA.task_id} not allowed to spawn {taskB.task_id}."
      else .ok ()
    else .ok ()
  else
    let policy := taskB.constraints.valid_previous_nodes_policy
    if policy == "allow_all" then .ok ()
    else if policy == "allow_none" then
      .error s!"Task {taskB.task_id} cannot have any parents."
    else if policy == "custom" then
      if !(taskB.constraints.valid_previous_nodes.contains taskA.task_id) then
        .error s!"Task {taskB.task_id} not allowed to have {taskA.task_id} as a creator."
      else .ok ()
    else .ok ()

/-- `check_edge_against_policy(taskA, taskB, direction)`.

`taskB` enters the Python function only through `taskB.task_id` (one call
site even passes a bare id string), so the embedding takes the id.

The `custom` branch is transcribed exactly as written in the source: its
two inner conditions test `policy == 'outgoing'` / `policy == 'incoming'`,
but `policy` holds the string `'custom'` in that branch, so both inner
conditions are false and the function falls through and admits the edge. -/
def check_edge_against_policy (taskA : Task) (taskB_id : String)
    (direction : String) : Except String Unit :=
  let policy :=
    if direction == "outgoing" then taskA.constraints.valid_outgoing_edges_policy
    else taskA.constraints.valid_incoming_edges_policy
  let valid_edges :=
    if direction == "outgoing" then taskA.constraints.valid_outgoing_edges
    else taskA.constraints.valid_incoming_edges
  if policy == "allow_all" then .ok ()
  else if policy == "allow_none" then
    .error s!"Task {taskA.task_id} cannot create {direction} edges."
  else if policy == "custom" then
    if policy == "outgoing" && !(valid_edges.contains (taskA.task_id, taskB_id)) then
      .error s!"Edge {taskA.task_id}->{taskB_id} not in valid_outgoing_edges of {taskA.task_id}."
    else if policy == "incoming" && !(valid_edges.contains (taskB_id, taskA.task_id)) then
      .error s!"Edge {taskA.task_id}->{taskB_id} not in valid_incoming_edges of {taskA.task_id}."
    else .ok ()
  else .ok ()

/-! ### Acyclicity (`networkx.is_directed_acyclic_graph`) -/

/-- Node set of the `networkx` digraph: `add_node` for every task id and
`add_edge` for every edge (which inserts both endpoints). -/
def graphNodes (taskKeys : List String) (edges : List (String × String)) :
    List String :=
  (taskKeys ++ edges.flatMap (fun e => [e.1, e.2])).dedup

/-- `v` has an incoming edge from a still-present node. -/
def hasIncomingEdge (edges : List (String × String)) (nodes : List String)
    (v : String) : Bool :=
  edges.any (fun e => nodes.contains e.1 && e.2 == v)

/-- Kahn-style elimination: repeatedly delete the nodes without incoming
edges; the graph is acyclic iff everything is eventually deleted.  This is
the decision procedure standing for `nx.is_directed_acyclic_graph`. -/
def kahnElim (edges : List (String × String)) :
    Nat → List String → Bool
  | 0, nodes => nodes.isEmpty
  | Nat.succ n, nodes =>
    if nodes.isEmpty then true
    else
      let rest := nodes.filter (fun v => hasIncomingEdge edges nodes v)
      if rest.length == nodes.length then false
      else kahnElim edges n rest

def is_directed_acyclic_graph (taskKeys : List String)
    (edges : List (String × String)) : Bool :=
  let nodes := graphNodes taskKeys edges
  kahnElim edges nodes.length nodes

/-- Consecutive pairs of a vertex list. -/
def chainPairs : List String → List (String × String)
  | a :: b :: rest => (a, b) :: chainPairs (b :: rest)
  | _ => []

/-- `l` is a directed cycle of `edges`: nonempty, consecutive vertices are
edges, and the last vertex steps back to the first. -/
def isCycleB (edges : List (String × String)) (l : List String) : Bool :=
  match l with
  | [] => false
  | a :: _ => (chainPairs (l ++ [a])).all (fun p => edges.contains p)

/-! ### Workflows (`src/workflow.py`) -/

structure Workflow where
  workflow_id : String
  tasks : List (String × Task)
  edges : List (String × String)
  visual_edges : List (String × String)

def Workflow.new (id : String) : Workflow :=
  ⟨id, [], [], []⟩

/-- The dependency loop inside `Workflow.add_task`: for each `dep`, check
registration, the two node policies and the two edge policies, then append
the edge to `edges` and `visual_edges`. -/
def addDeps (wf : Workflow) (task : Task) :
    List String → Except String Workflow
  | [] => .ok wf
  | dep :: rest =>
    match alookup wf.tasks dep with
    | none => .error s!"Dependency {dep} not in {wf.workflow_id}"
    | some depTask =>
      match check_node_against_policy depTask task "next" with
      | .error e => .error e
      | .ok _ =>
        match check_node_against_policy depTask task "previous" with
        | .error e => .error e
        | .ok _ =>
          match check_edge_against_policy task depTask.task_id "incoming" with
          | .error e => .error e
          | .ok _ =>
            match check_edge_against_policy depTask task.task_id "outgoing" with
            | .error e => .error e
            | .ok _ =>
              addDeps
                { wf with
                  edges := wf.edges ++ [(dep, task.task_id)]
                  visual_edges := wf.visual_edges ++ [(dep, task.task_id)] }
                task rest

/-- `Workflow.add_task(task, dependencies)`.  The Python method mutates the
workflow in place and raises on failure, after which the caller discards
the workflow; the embedding returns the successfully mutated workflow or
the error.  (`visualize` only renders a PNG and is omitted.) -/
def Workflow.add_task (wf : Workflow) (task : Task)
    (dependencies : List String) : Except String Workflow :=
  if (alookup wf.tasks task.task_id).isSome then
    .error s!"Task {task.task_id} already in {wf.workflow_id}"
  else
    let wf1 := { wf with tasks := wf.tasks ++ [(task.task_id, task)] }
    match addDeps wf1 task dependencies with
    | .error e => .error e
    | .ok wf2 =>
      if is_directed_acyclic_graph (wf2.tasks.map Prod.fst) wf2.edges then
        .ok wf2
      else
        .error "DAG cycle detected in workflow registration."

/-! ### Orchestrator state (`src/orchestrator.py`)

The orchestrator holds per-`(wf_id, task_id)` dictionaries; the embedding
fixes one workflow, so the maps are keyed by task id alone.  `events` is
ghost instrumentation (never read by the embedded operations). -/

inductive Status where
  | pending | running | done | failed
deriving DecidableEq, Repr

/-- A status is terminal (`done` or `failed`). -/
def Status.terminal : Status → Bool
  | .done => true
  | .failed => true
  | _ => false

inductive Event where
  /-- the task body was invoked (dispatch in `spawn_parallel`/`task_runner`) -/
  | invoke (t : String)
  /-- a stored status actually changed (site names the writing code path) -/
  | statusChange (site : String) (t : String) (oldS newS : Status)
  /-- `task_outputs` was written for a key that already had an output -/
  | outputOverwrite (t : String)
  /-- at the moment `(p, c)` entered the ready queue, edge `(p, c)` existed
      with `p` not terminal -/
  | enqViolation (p c : String)
  /-- at the moment `c`'s body was invoked, edge `(p, c)` existed with `p`
      not terminal -/
  | depViolation (p c : String)
  /-- a `spawn_task` call with this creator ran to completion -/
  | spawnSuccess (creator : String)
  /-- `fail_workflow` raised an abort with this message -/
  | abortRaised (msg : String)
deriving DecidableEq, Repr

/-- A raised Python exception: `abortExc` is the `RuntimeError` raised by
`fail_workflow`; `exc` is any other exception (`KeyError`, an exception
raised by a task body, ...). -/
inductive PyExc where
  | abortExc (msg : String)
  | exc (msg : String)
deriving DecidableEq, Repr

structure Orch where
  wf : Workflow
  task_status : List (String × Status)
  task_inputs : List (String × Value)
  task_outputs : List (String × Value)
  spawn_counts : List (String × Nat)
  running_loop : Bool
  ready_queue : List (String × Value)
  execution_history : List (String × Nat)
  /-- ghost event log -/
  events : List Event

def Orch.taskIds (st : Orch) : List String := st.wf.tasks.map Prod.fst

/-- `self.task_status[(wf_id, t)]`.  A missing key would raise `KeyError`
in Python; every reachable read has the key present (proved below), and the
embedding totalises the read with the terminal default `failed`. -/
def Orch.statusOf (st : Orch) (t : String) : Status :=
  (alookup st.task_status t).getD .failed

/-- `self.spawn_counts[(wf_id, t)]`, totalised with 0 (missing keys are
unreachable on the paths that read it). -/
def Orch.countOf (st : Orch) (t : String) : Nat :=
  (alookup st.spawn_counts t).getD 0

/-- Status write, routed through one helper so the ghost log records every
actual change together with the writing site. -/
def Orch.setStatus (st : Orch) (site : String) (t : String) (s : Status) :
    Orch :=
  let ev :=
    match alookup st.task_status t with
    | some oldS => if oldS = s then [] else [Event.statusChange site t oldS s]
    | none => []
  { st with task_status := aset st.task_status t s, events := st.events ++ ev }

/-- Output write (`self.task_outputs[key] = result`), logging overwrites. -/
def Orch.setOutput (st : Orch) (t : String) (v : Value) : Orch :=
  let ev :=
    if (alookup st.task_outputs t).isSome then [Event.outputOverwrite t] else []
  { st with task_outputs := aset st.task_outputs t v, events := st.events ++ ev }

/-- `self.ready_queue[wf_id].append((t, v))`, logging every dependency edge
`(p, t)` whose source is not yet terminal at this moment. -/
def Orch.enqueue (st : Orch) (t : String) (v : Value) : Orch :=
  let viol := st.wf.edges.filterMap (fun pc =>
    if pc.2 == t && !(st.statusOf pc.1).terminal then
      some (Event.enqViolation pc.1 pc.2)
    else none)
  { st with ready_queue := st.ready_queue ++ [(t, v)],
            events := st.events ++ viol }

/-- The abort message format of `fail_workflow`. -/
def abortMsg (wf_id error_msg : String) : String :=
  s!"Workflow {wf_id} terminated due to constraint violation: {error_msg}"

/-- One iteration of the `fail_workflow` loop: flip the task to `failed`
when its status is `pending` or `running`. -/
def failFlip (acc : Orch) (p : String × Task) : Orch :=
  if acc.statusOf p.1 = .pending ∨ acc.statusOf p.1 = .running then
    acc.setStatus "fail_workflow" p.1 .failed
  else acc

/-- `fail_workflow` (local to `spawn_task`): empty the queue, flip every
pending/running task of the workflow to `failed`, clear `running_loop`,
raise the abort `RuntimeError`. -/
def Orch.fail_workflow (st : Orch) (wf_id error_msg : String) :
    Orch × PyExc :=
  let st1 := { st with ready_queue := [] }
  let st2 := st.wf.tasks.foldl failFlip st1
  let msg := abortMsg wf_id error_msg
  ({ st2 with running_loop := false,
              events := st2.events ++ [Event.abortRaised msg] },
   PyExc.abortExc msg)

/-- `Orchestrator.complete_task`: look up the status (a missing key is a
Python `KeyError`), return silently unless the task is `running`/`pending`,
else mark `done` and store the output. -/
def Orch.complete_task (st : Orch) (task_id : String) (result : Value) :
    Orch × Option PyExc :=
  match alookup st.task_status task_id with
  | none => (st, some (.exc "KeyError: task_status"))
  | some s =>
    if s ≠ .running ∧ s ≠ .pending then (st, none)
    else
      (((st.setStatus "complete_task" task_id .done).setOutput task_id result),
       none)

/-- The `new_edges` loop of `spawn_task`: relatedness check, the two
`Task` lookups (a Python `KeyError` if an endpoint is unregistered), the
two edge-policy checks (a rejection is caught and turned into
`fail_workflow`), then append to `edges` and `visual_edges`. -/
def Orch.addNewEdges (st : Orch) (wf_id creator_task_id new_task_id : String) :
    List (String × String) → Orch × Option PyExc
  | [] => (st, none)
  | (src, dst) :: rest =>
    if (src ≠ creator_task_id ∧ src ≠ new_task_id) ∧
       (dst ≠ creator_task_id ∧ dst ≠ new_task_id) then
      let r := st.fail_workflow wf_id
        s!"The edge ({src}, {dst}) is not related to the creator or the new task."
      (r.1, some r.2)
    else
      match alookup st.wf.tasks src, alookup st.wf.tasks dst with
      | some src_object, some dst_object =>
        (match (match check_edge_against_policy dst_object src_object.task_id "incoming" with
                | .error e => (.error e : Except String Unit)
                | .ok _ => check_edge_against_policy src_object dst "outgoing") with
         | .error e =>
           let r := st.fail_workflow wf_id e
           (r.1, some r.2)
         | .ok _ =>
           Orch.addNewEdges
             { st with wf := { st.wf with
                 edges := st.wf.edges ++ [(src, dst)],
                 visual_edges := st.wf.visual_edges ++ [(src, dst)] } }
             wf_id creator_task_id new_task_id rest)
      | _, _ => (st, some (.exc "KeyError: tasks"))

/-- Steps 4–7 of `spawn_task`: insert the new task (`pending`, spawn count
0), increment the creator's spawn count, assign the informational execution
step (`parent_step + 1`), and append the visual edge unless skipped. -/
def Orch.spawnInsert (st : Orch) (creator_task_id : String) (new_task : Task)
    (skip_visual_edge : Bool) : Orch :=
  let st1 := { st with wf := { st.wf with
                 tasks := st.wf.tasks ++ [(new_task.task_id, new_task)] } }
  let st2 := st1.setStatus "spawn_insert" new_task.task_id .pending
  let st3 := { st2 with spawn_counts := aset st2.spawn_counts new_task.task_id 0 }
  let st4 := { st3 with
               spawn_counts := aset st3.spawn_counts creator_task_id
                 (st3.countOf creator_task_id + 1) }
  let parent_step := (alookup st4.execution_history creator_task_id).getD 0
  let st5 := { st4 with
               execution_history := aset st4.execution_history
                 new_task.task_id (parent_step + 1) }
  if skip_visual_edge then st5
  else { st5 with wf := { st5.wf with
           visual_edges := st5.wf.visual_edges ++
             [(creator_task_id, new_task.task_id)] } }

/-- `Orchestrator.spawn_task`.  State mutated before a failure stays
mutated (Python raises out of the mutating method); the optional exception
is the raised error. -/
def Orch.spawn_task (st : Orch) (wf_id creator_task_id : String)
    (new_task : Task) (new_edges : List (String × String))
    (input_data : Option Value) (skip_visual_edge : Bool) :
    Orch × Option PyExc :=
  match alookup st.wf.tasks creator_task_id with
  | none =>
    let r := st.fail_workflow wf_id
      s!"Creator {creator_task_id} not in wf {wf_id}"
    (r.1, some r.2)
  | some creator_obj =>
    if (match creator_obj.constraints.max_spawn_count with
        | some k => decide ((st.countOf creator_task_id : Int) ≥ k)
        | none => false) then
      let r := st.fail_workflow wf_id
        s!"Task {creator_task_id} exceeded spawn count"
      (r.1, some r.2)
    else
      match (match check_node_against_policy creator_obj new_task "next" with
             | .error e => (.error e : Except String Unit)
             | .ok _ => check_node_against_policy creator_obj new_task "previous") with
      | .error e =>
        let r := st.fail_workflow wf_id e
        (r.1, some r.2)
      | .ok _ =>
        if (alookup st.wf.tasks new_task.task_id).isSome then
          let r := st.fail_workflow wf_id
            s!"Task {new_task.task_id} already in wf {wf_id}"
          (r.1, some r.2)
        else
          let st6 := st.spawnInsert creator_task_id new_task skip_visual_edge
          match st6.addNewEdges wf_id creator_task_id new_task.task_id new_edges with
          | (st7, some e) => (st7, some e)
          | (st7, none) =>
            if !(is_directed_acyclic_graph (st7.wf.tasks.map Prod.fst) st7.wf.edges) then
              let r := st7.fail_workflow wf_id "spawn_task caused cycle"
              (r.1, some r.2)
            else
              let st8 :=
                match input_data with
                | some d =>
                  if st7.wf.edges.any (fun e => e.2 == new_task.task_id) then st7
                  else st7.enqueue new_task.task_id d
                | none => st7
              ({ st8 with events := st8.events ++
                   [Event.spawnSuccess creator_task_id] }, none)

/-! ### Task bodies and the dispatcher -/

/-- Run the script commands of a body, threading state; a raised exception
stops the script unless that command's `swallow` flag models a
`try/except` around it. -/
def run_body_cmds (st : Orch) (wf_id : String) :
    List BodyCmd → Orch × Option PyExc
  | [] => (st, none)
  | cmd :: rest =>
    let step : Orch × Option PyExc × Bool :=
      match cmd with
      | .spawnCmd creator nt ne inp skipv sw =>
        let r := st.spawn_task wf_id creator nt ne inp skipv
        (r.1, r.2, sw)
      | .completeCmd target res sw =>
        let r := st.complete_task target res
        (r.1, r.2, sw)
    match step with
    | (st', none, _) => run_body_cmds st' wf_id rest
    | (st', some e, sw) =>
      if sw then run_body_cmds st' wf_id rest else (st', some e)

/-- Run a task body (`task_obj.func(wf_id, task_id, inputs, orchestrator)`
for a scripted body; scripted bodies ignore `inputs`): returns the mutated
state, an uncaught exception if the body raised, and the return value. -/
def run_body (st : Orch) (wf_id : String) (b : Body) :
    Orch × Option PyExc × Value :=
  match run_body_cmds st wf_id b.cmds with
  | (st', some e) => (st', some e, Value.vnone)
  | (st', none) =>
    match b.outcome with
    | .ret v => (st', none, v)
    | .raiseExc => (st', some (.exc "body raised"), Value.vnone)

/-- `task_runner`: run the body and `complete_task` on normal return;
`except Exception:` catches anything raised (including an abort from
`spawn_task`) and writes `failed` into `task_status` unconditionally. -/
def task_runner (st : Orch) (wf_id task_id : String) : Orch :=
  match alookup st.wf.tasks task_id with
  | none => st.setStatus "task_runner_fail" task_id .failed
  | some task_obj =>
    match run_body st wf_id task_obj.body with
    | (st', none, res) =>
      match st'.complete_task task_id res with
      | (st'', none) => st''
      | (st'', some _) => st''.setStatus "task_runner_fail" task_id .failed
    | (st', some _, _) => st'.setStatus "task_runner_fail" task_id .failed

/-- `Orchestrator.spawn_parallel`: dispatch only a `pending` task, set it
`running`, record its inputs and invoke the body synchronously.  The ghost
log records the invocation and any dependency edge whose source is not
terminal at this moment. -/
def Orch.spawn_parallel (st : Orch) (wf_id t_id : String) (inputs : Value) :
    Orch :=
  if st.statusOf t_id = .pending then
    let st1 := st.setStatus "spawn_parallel" t_id .running
    let st2 := { st1 with task_inputs := aset st1.task_inputs t_id inputs }
    let viol := st2.wf.edges.filterMap (fun pc =>
      if pc.2 == t_id && !(st2.statusOf pc.1).terminal then
        some (Event.depViolation pc.1 pc.2)
      else none)
    let st3 := { st2 with events := st2.events ++ [Event.invoke t_id] ++ viol }
    task_runner st3 wf_id t_id
  else st

/-! ### The scheduling loop -/

/-- Predecessors of `t` in edge-insertion order (the `rev` dict of the
source is built by appending sources while scanning `edges` in order). -/
def predsOf (edges : List (String × String)) (t : String) : List String :=
  (edges.filter (fun e => e.2 == t)).map Prod.fst

/-- Input assembly of `run_helper`: for each predecessor in edge order,
`task_outputs.get` and keep the output when truthy. -/
def Orch.assembleInputs (st : Orch) (preds : List String) : List Value :=
  preds.filterMap (fun p =>
    match alookup st.task_outputs p with
    | some v => if v.truthy then some v else none
    | none => none)

/-- `all_done` of the discovery pass: no predecessor `pending`/`running`. -/
def Orch.allPredsDone (st : Orch) (preds : List String) : Bool :=
  preds.all (fun p => !(st.statusOf p = .pending ∨ st.statusOf p = .running))

/-- The discovery pass of `run_helper`: every `pending` task whose
predecessors are all terminal, with its assembled inputs, in `tasks`
insertion order. -/
def Orch.discover (st : Orch) : List (String × List Value) :=
  st.wf.tasks.filterMap (fun p =>
    if st.statusOf p.1 = .pending then
      let preds := predsOf st.wf.edges p.1
      if st.allPredsDone preds then some (p.1, st.assembleInputs preds)
      else none
    else none)

/-- `current_step = max(execution_history.get(t, 0) for t in tasks) + 1`.
Only read with a nonempty task list — `run_helper` raises Python's
empty-sequence `ValueError` first otherwise — and on a nonempty list of
naturals the fold from 0 equals Python's `max`. -/
def Orch.currentStep (st : Orch) : Nat :=
  (st.wf.tasks.map (fun p => (alookup st.execution_history p.1).getD 0)).foldl
    max 0 + 1

/-- The queue-draining loop of `run_helper`; bodies may push onto the
queue while it drains, hence the fuel. -/
def Orch.drainQueue (st : Orch) (wf_id : String) : Nat → Orch
  | 0 => st
  | Nat.succ n =>
    match st.ready_queue with
    | [] => st
    | (tid, inputs) :: rest =>
      let st1 := { st with ready_queue := rest }
      let st2 := st1.spawn_parallel wf_id tid inputs
      st2.drainQueue wf_id n

/-- `Orchestrator.run_helper`: `current_step` is computed by Python's
`max` over a per-task generator, which raises `ValueError` when the
workflow has no registered tasks — before any state is mutated; otherwise
one discovery pass (all tasks unblocked in the pass share `current_step`),
then drain the queue.  (`visualize` only renders a PNG and is omitted.) -/
def Orch.run_helper (st : Orch) (wf_id : String) (fuel : Nat) :
    Orch × Option PyExc :=
  if st.wf.tasks.isEmpty then
    (st, some (.exc "ValueError: max() arg is an empty sequence"))
  else
    let step := st.currentStep
    let newly := st.discover
    let st1 := newly.foldl
      (fun acc tp =>
        let acc1 := acc.enqueue tp.1 (Value.vlist tp.2)
        { acc1 with execution_history := aset acc1.execution_history tp.1 step })
      st
    (st1.drainQueue wf_id fuel, none)

/-- All registered tasks are terminal (the loop exit check). -/
def Orch.allTerminal (st : Orch) : Bool :=
  st.wf.tasks.all (fun p => (st.statusOf p.1).terminal)

inductive RunResult where
  | completed
  | raised (e : PyExc)
  | outOfFuel
deriving DecidableEq, Repr

/-- The `while True` loop of `run_workflow`; an exception raised by
`run_helper` propagates out of the loop. -/
def Orch.runLoop (st : Orch) (wf_id : String) : Nat → Orch × RunResult
  | 0 => (st, .outOfFuel)
  | Nat.succ n =>
    match st.run_helper wf_id (Nat.succ n) with
    | (st1, some e) => (st1, .raised e)
    | (st1, none) =>
      if st1.allTerminal then (st1, .completed)
      else st1.runLoop wf_id n

/-- `Orchestrator.run_workflow`: entry checks, set `running_loop`, enqueue
every task without incoming edges with its user input (default `[]`), loop
until every task is terminal, clear `running_loop`.  An exception raised
inside the loop propagates with `running_loop` still set; fuel exhaustion
is the embedding's stand-in for a still-running loop. -/
def Orch.run_workflow (st : Orch) (wf_id : String)
    (input_data : List (String × Value)) (fuel : Nat) : Orch × RunResult :=
  if wf_id ≠ st.wf.workflow_id then
    (st, .raised (.exc s!"No workflow {wf_id}"))
  else if st.running_loop then
    (st, .raised (.exc s!"Workflow {wf_id} is already running a scheduling loop."))
  else
    let st1 := { st with running_loop := true }
    let roots := st1.wf.tasks.filterMap (fun p =>
      if st1.wf.edges.any (fun e => e.2 == p.1) then none else some p.1)
    let st2 := roots.foldl
      (fun acc r => acc.enqueue r ((alookup input_data r).getD (Value.vlist [])))
      st1
    match st2.runLoop wf_id fuel with
    | (st3, .completed) => ({ st3 with running_loop := false }, .completed)
    | (st3, r) => (st3, r)

/-- `Orchestrator.register_workflow` restricted to the registered workflow:
statuses `pending`, spawn counts 0, empty queue, loop flag clear. -/
def register_workflow (wf : Workflow) : Orch :=
  { wf := wf
    task_status := wf.tasks.map (fun p => (p.1, Status.pending))
    task_inputs := []
    task_outputs := []
    spawn_counts := wf.tasks.map (fun p => (p.1, 0))
    running_loop := false
    ready_queue := []
    execution_history := []
    events := [] }

/-- `Orchestrator.check_task_status`. -/
def Orch.check_task_status (st : Orch) (task_id : String) :
    Option Status × Option Value :=
  let s := alookup st.task_status task_id
  let r := if s = some .done then alookup st.task_outputs task_id else none
  (s, r)

/-! ### Whole-lifetime operation sequences

`spawn_task` and `complete_task` are reachable from outside the loop too
(the orchestrator handle is public), so lifetime invariants are proved over
arbitrary interleavings of the public operations. -/

inductive OrchOp where
  | opRun (wf_id : String) (input : List (String × Value)) (fuel : Nat)
  | opHelper (wf_id : String) (fuel : Nat)
  | opSpawn (wf_id creator : String) (nt : Task)
      (ne : List (String × String)) (inp : Option Value) (skipv : Bool)
  | opComplete (t : String) (v : Value)

def applyOp (st : Orch) : OrchOp → Orch
  | .opRun w i f => (st.run_workflow w i f).1
  | .opHelper w f => (st.run_helper w f).1
  | .opSpawn w c nt ne inp sk => (st.spawn_task w c nt ne inp sk).1
  | .opComplete t v => (st.complete_task t v).1

def execOps (st : Orch) (ops : List OrchOp) : Orch :=
  ops.foldl applyOp st

/-- Number of `spawnSuccess t` events: successful `spawn_task` calls with
creator `t` so far. -/
def succCount (st : Orch) (t : String) : Nat :=
  st.events.countP (fun e => e == Event.spawnSuccess t)

/-- Number of `invoke t` events: body invocations of `t` so far. -/
def invokeCount (st : Orch) (t : String) : Nat :=
  st.events.countP (fun e => e == Event.invoke t)

/-- The effects claimed for a workflow abort, relative to the state
`stPre` at the start of the failing call. -/
def AbortEffects (stPre st' : Orch) (wf_id msg : String) : Prop :=
  st'.ready_queue = [] ∧
  st'.running_loop = false ∧
  (∀ t, t ∈ st'.taskIds → st'.statusOf t ≠ .pending ∧ st'.statusOf t ≠ .running) ∧
  (∀ t, t ∈ stPre.taskIds →
    (stPre.statusOf t = .pending ∨ stPre.statusOf t = .running) →
    st'.statusOf t = .failed) ∧
  (∃ em, msg = abortMsg wf_id em)

def c2TaskA : Task :=
  .mk "A" (.mk [] (.ret .vnone))
    { TaskConstraints.default with
      valid_outgoing_edges_policy := "custom"
      valid_outgoing_edges := [("A", "C")] }

def c2TaskB : Task :=
  .mk "B" (.mk [] (.ret .vnone))
    { TaskConstraints.default with
      valid_incoming_edges_policy := "custom"
      valid_incoming_edges := [("C", "B")] }

def policyTokens : List String := ["allow_all", "allow_none", "custom"]

/-- The invalidity condition claimed for constraint construction. -/
def constraintsInvalid (c : TaskConstraints) : Prop :=
  (∃ k, c.max_spawn_count = some k ∧ k < 0) ∨
  c.valid_next_nodes_policy ∉ policyTokens ∨
  c.valid_previous_nodes_policy ∉ policyTokens ∨
  c.valid_incoming_edges_policy ∉ policyTokens ∨
  c.valid_outgoing_edges_policy ∉ policyTokens ∨
  (c.valid_next_nodes_policy = "allow_none" ∧ c.valid_next_nodes ≠ []) ∨
  (c.valid_next_nodes_policy = "custom" ∧ c.valid_next_nodes = []) ∨
  (c.valid_previous_nodes_policy = "allow_none" ∧ c.valid_previous_nodes ≠ []) ∨
  (c.valid_previous_nodes_policy = "custom" ∧ c.valid_previous_nodes = []) ∨
  (c.valid_incoming_edges_policy = "allow_none" ∧ c.valid_incoming_edges ≠ []) ∨
  (c.valid_incoming_edges_policy = "custom" ∧ c.valid_incoming_edges = []) ∨
  (c.valid_outgoing_edges_policy = "allow_none" ∧ c.valid_outgoing_edges ≠ []) ∨
  (c.valid_outgoing_edges_policy = "custom" ∧ c.valid_outgoing_edges = [])

/-- Lifetime invariant of the orchestrator state.  `register_workflow`
establishes it and every public operation preserves it; the lifetime
claims (spawn quota, at-most-once dispatch, terminal stickiness,
enqueue-time dependency order) are its corollaries. -/
structure Inv (st : Orch) : Prop where
  /-- every status entry belongs to a registered task -/
  status_keys : ∀ t, (alookup st.task_status t).isSome = true → t ∈ st.taskIds
  /-- every spawn-count entry belongs to a registered task -/
  counts_keys : ∀ t, (alookup st.spawn_counts t).isSome = true → t ∈ st.taskIds
  /-- every recorded output belongs to a registered task -/
  outputs_keys : ∀ t, (alookup st.task_outputs t).isSome = true → t ∈ st.taskIds
  /-- a task with a recorded output is terminal -/
  outputs_terminal : ∀ t, (alookup st.task_outputs t).isSome = true →
    (st.statusOf t).terminal = true
  /-- task ids are unique -/
  keys_nodup : (st.wf.tasks.map Prod.fst).Nodup
  /-- successful spawns are attributed to registered tasks -/
  success_mem : ∀ t, Event.spawnSuccess t ∈ st.events → t ∈ st.taskIds
  /-- the stored spawn count dominates the number of successful spawns -/
  succ_le_count : ∀ t, succCount st t ≤ st.countOf t
  /-- the stored spawn count respects the task's quota (or is still 0) -/
  count_le_max : ∀ t task, (t, task) ∈ st.wf.tasks →
    ∀ k, task.constraints.max_spawn_count = some k →
    (st.countOf t : Int) ≤ k ∨ st.countOf t = 0
  /-- invoked tasks are registered -/
  invoke_mem : ∀ t, Event.invoke t ∈ st.events → t ∈ st.taskIds
  /-- no task body has been invoked more than once -/
  invoke_once : ∀ t, invokeCount st t ≤ 1
  /-- an invoked task never has status `pending` again -/
  invoke_started : ∀ t, Event.invoke t ∈ st.events → st.statusOf t ≠ .pending
  /-- the only status change out of a terminal status is the task-runner
      failure handler overwriting `done` with `failed` -/
  terminal_sticky : ∀ site t oldS newS,
    Event.statusChange site t oldS newS ∈ st.events →
    oldS.terminal = true →
    oldS = .done ∧ newS = .failed ∧ site = "task_runner_fail"
  /-- no recorded output was ever overwritten -/
  no_overwrite : ∀ t, Event.outputOverwrite t ∉ st.events
  /-- every queue insertion happened with all current predecessors
      terminal -/
  no_enq_violation : ∀ p c, Event.enqViolation p c ∉ st.events

/-! ### Concrete scenarios

Small concrete workflows driving the counterexample runs and the witness
instantiations; each scenario belongs to a single claim. -/

/-- C1 counterexample: the spawn quota of `X` is 0, so the spawn made from
inside `X`'s body aborts the workflow from inside the dispatcher. -/
def c1TaskC : Task := .mk "c" (.mk [] (.ret (.vint 1))) TaskConstraints.default

def c1TaskX : Task :=
  .mk "X" (.mk [.spawnCmd "X" c1TaskC [] none false false] (.ret .vnone))
    { TaskConstraints.default with max_spawn_count := some 0 }

def c1Wf : Workflow := ⟨"W", [("X", c1TaskX)], [], []⟩

def c1Pair : Orch × RunResult := (register_workflow c1Wf).run_workflow "W" [] 5

/-- C1 witness workflow: a single task with a trivial body. -/
def c1wWf : Workflow :=
  ⟨"W", [("A", .mk "A" (.mk [] (.ret .vnone)) TaskConstraints.default)], [], []⟩

/-- C3 witness scenario: a spawn whose creator is not registered. -/
def c3Wf : Workflow :=
  ⟨"W", [("A", .mk "A" (.mk [] (.ret .vnone)) TaskConstraints.default)], [], []⟩

def c3NewTask : Task := .mk "N" (.mk [] (.ret .vnone)) TaskConstraints.default

/-- C4 counterexample: `X` spawns `c` with `input_data` (queueing `c` at
once), then spawns `d` together with the new edge `(d, c)`; `c` is later
dispatched while its recorded predecessor `d` is still `pending`. -/
def c4TaskC : Task := .mk "c" (.mk [] (.ret (.vint 1))) TaskConstraints.default

def c4TaskD : Task := .mk "d" (.mk [] (.ret (.vint 2))) TaskConstraints.default

def c4TaskX : Task :=
  .mk "X" (.mk
    [.spawnCmd "X" c4TaskC [] (some (.vint 5)) false false,
     .spawnCmd "X" c4TaskD [("d", "c")] none false false] (.ret .vnone))
    TaskConstraints.default

def c4Wf : Workflow := ⟨"W", [("X", c4TaskX)], [], []⟩

def c4Pair : Orch × RunResult := (register_workflow c4Wf).run_workflow "W" [] 6

/-- C4 witness workflow: `B` depends on `A`. -/
def c4wWf : Workflow :=
  ⟨"W",
   [("A", .mk "A" (.mk [] (.ret (.vint 1))) TaskConstraints.default),
    ("B", .mk "B" (.mk [] (.ret (.vint 2))) TaskConstraints.default)],
   [("A", "B")], [("A", "B")]⟩

/-- C5 witness scenario: adding one task to an empty workflow. -/
def c5Task : Task := .mk "A" (.mk [] (.ret .vnone)) TaskConstraints.default

def c5Wf2 : Workflow := ⟨"W", [("A", c5Task)], [], []⟩

/-- C6 witness workflow: `X` may spawn at most once. -/
def c6TaskX : Task :=
  .mk "X" (.mk [] (.ret .vnone))
    { TaskConstraints.default with max_spawn_count := some 1 }

def c6Wf : Workflow := ⟨"W", [("X", c6TaskX)], [], []⟩

/-- C7 counterexample: the body of `X` completes its own task (status
`done`, output 5) and then raises; `task_runner` catches the exception and
overwrites the terminal status with `failed`. -/
def c7Task : Task :=
  .mk "X" (.mk [.completeCmd "X" (.vint 5) false] .raiseExc)
    TaskConstraints.default

def c7Wf : Workflow := ⟨"W", [("X", c7Task)], [], []⟩

def c7Run : Orch := ((register_workflow c7Wf).run_workflow "W" [] 5).1

/-- C7 witness workflow. -/
def c7wWf : Workflow :=
  ⟨"W", [("A", .mk "A" (.mk [] (.ret .vnone)) TaskConstraints.default)], [], []⟩

/-- C8, spec-modelled side: input assembly as the specification words it —
the outputs of the task's predecessors taken in edge-insertion order,
omitting every predecessor whose output is absent or not truthy. -/
def specInputs (st : Orch) (t : String) : List Value :=
  ((st.wf.edges.filter (fun e => e.2 == t)).map Prod.fst).filterMap
    (fun p =>
      match alookup st.task_outputs p with
      | some v => if v.truthy then some v else none
      | none => none)

/-- C8 witness workflow. -/
def c8Wf : Workflow :=
  ⟨"W", [("A", .mk "A" (.mk [] (.ret (.vint 3))) TaskConstraints.default)], [], []⟩

/-- C9 witness: a `custom` policy paired with an empty list. -/
def c9Bad : TaskConstraints :=
  { TaskConstraints.default with valid_next_nodes_policy := "custom" }

/-- C10 witness workflow. -/
def c10Wf : Workflow :=
  ⟨"W", [("A", .mk "A" (.mk [] (.ret .vnone)) TaskConstraints.default)], [], []⟩

/-! ### Association-list lemmas -/

theorem alookup_isSome_iff_mem {α : Type} (l : List (String × α)) (k : String) :
    (alookup l k).isSome = true ↔ k ∈ l.map Prod.fst := by
  induction l with
  | nil => simp [alookup]
  | cons p rest ih =>
    by_cases hp : p.1 = k
    · simp [alookup, hp]
    · simp [alookup, hp, ih, Ne.symm hp]

theorem alookup_map_replace_ne {α : Type} (l : List (String × α)) (k : String)
    (v : α) (k' : String) (h : k' ≠ k) :
    alookup (l.map (fun p => if p.1 = k then (k, v) else p)) k' = alookup l k' := by
  induction l with
  | nil => rfl
  | cons p rest ih =>
    by_cases hp : p.1 = k
    · simp [alookup, hp, Ne.symm h, ih]
    · simp only [List.map, alookup, if_neg hp]
      by_cases hk : p.1 = k'
      · simp [alookup, hk]
      · simp [alookup, hk, ih]

theorem alookup_map_replace_self {α : Type} (l : List (String × α)) (k : String)
    (v : α) (h : (alookup l k).isSome = true) :
    alookup (l.map (fun p => if p.1 = k then (k, v) else p)) k = some v := by
  induction l with
  | nil => simp [alookup] at h
  | cons p rest ih =>
    by_cases hp : p.1 = k
    · simp [alookup, hp]
    · simp only [alookup, if_neg hp] at h
      simp only [List.map, if_neg hp]
      simp only [alookup, if_neg hp]
      exact ih h

theorem alookup_append_left {α : Type} (l1 l2 : List (String × α)) (k : String)
    (h : (alookup l1 k).isSome = true) :
    alookup (l1 ++ l2) k = alookup l1 k := by
  induction l1 with
  | nil => simp [alookup] at h
  | cons p rest ih =>
    by_cases hp : p.1 = k
    · simp [alookup, hp]
    · simp only [alookup, if_neg hp] at h ⊢
      exact ih h

theorem alookup_append_right {α : Type} (l1 l2 : List (String × α)) (k : String)
    (h : alookup l1 k = none) :
    alookup (l1 ++ l2) k = alookup l2 k := by
  induction l1 with
  | nil => simp
  | cons p rest ih =>
    by_cases hp : p.1 = k
    · simp [alookup, hp] at h
    · simp only [alookup, List.cons_append, if_neg hp] at h ⊢
      exact ih h

theorem alookup_aset_self {α : Type} (l : List (String × α)) (k : String) (v : α) :
    alookup (aset l k v) k = some v := by
  unfold aset
  by_cases h : (alookup l k).isSome = true
  · rw [if_pos h]
    exact alookup_map_replace_self l k v h
  · rw [if_neg h]
    have hn : alookup l k = none := by
      cases ho : alookup l k
      · rfl
      · simp [ho] at h
    rw [alookup_append_right _ _ _ hn]
    simp [alookup]

theorem alookup_aset_ne {α : Type} (l : List (String × α)) (k : String) (v : α)
    (k' : String) (h : k' ≠ k) :
    alookup (aset l k v) k' = alookup l k' := by
  unfold aset
  by_cases hs : (alookup l k).isSome = true
  · rw [if_pos hs]
    exact alookup_map_replace_ne l k v k' h
  · rw [if_neg hs]
    by_cases h' : (alookup l k').isSome = true
    · rw [alookup_append_left _ _ _ h']
    · have hn : alookup l k' = none := by
        cases ho : alookup l k'
        · rfl
        · simp [ho] at h'
      rw [alookup_append_right _ _ _ hn, hn]
      simp [alookup, Ne.symm h]

theorem alookup_aset_isSome {α : Type} (l : List (String × α)) (k : String)
    (v : α) (k' : String) (h : (alookup (aset l k v) k').isSome = true) :
    (alookup l k').isSome = true ∨ k' = k := by
  by_cases hk : k' = k
  · exact Or.inr hk
  · rw [alookup_aset_ne l k v k' hk] at h
    exact Or.inl h

theorem mem_of_alookup_eq_some {α : Type} {l : List (String × α)} {k : String}
    {a : α} (h : alookup l k = some a) : (k, a) ∈ l := by
  induction l with
  | nil => simp [alookup] at h
  | cons p rest ih =>
    cases p with
    | mk k0 v0 =>
      by_cases hp : k0 = k
      · simp only [alookup, if_pos hp] at h
        injection h with h2
        subst hp
        subst h2
        exact List.mem_cons_self _ _
      · simp only [alookup, if_neg hp] at h
        exact List.mem_cons_of_mem _ (ih h)

theorem alookup_eq_some_of_mem_nodup {α : Type} {l : List (String × α)}
    (hn : (l.map Prod.fst).Nodup) {k : String} {a : α} (h : (k, a) ∈ l) :
    alookup l k = some a := by
  induction l with
  | nil => simp at h
  | cons p rest ih =>
    simp only [List.map, List.nodup_cons] at hn
    rcases List.mem_cons.mp h with h1 | h2
    · subst h1
      simp [alookup]
    · have hp : p.1 ≠ k := by
        intro hk
        exact hn.1 (hk ▸ (List.mem_map.mpr ⟨(k, a), h2, rfl⟩))
      simp only [alookup, if_neg hp]
      exact ih hn.2 h2

/-! ## Claim C2: the `custom` edge-policy branch

§4.2 of the specification demands: under a `custom` policy, admit the
candidate edge iff the pair is listed, otherwise raise.  In the source the
`custom` branch compares `policy == 'outgoing'` / `policy == 'incoming'`
while `policy` is `'custom'`, so the branch admits unconditionally (§9 of
the spec documents this as the error-policy bug). -/


/-- C2: the code admits the candidate edge `A→B` in both directions even
though `("A", "B")` is in neither custom list — the claimed
structural-violation error is never raised, because the `custom` branch of
`check_edge_against_policy` is unreachable by its own inner comparisons. -/
theorem c2_custom_edge_policy_admits_unlisted_edge :
    check_edge_against_policy c2TaskA "B" "outgoing" = .ok () ∧
    check_edge_against_policy c2TaskB "A" "incoming" = .ok () ∧
    ("A", "B") ∉ c2TaskA.constraints.valid_outgoing_edges ∧
    ("A", "B") ∉ c2TaskB.constraints.valid_incoming_edges := by
  refine ⟨rfl, rfl, ?_, ?_⟩ <;> decide

/-! ## Claim C9: constraint-record validation -/


theorem validate_policy_values_ok_iff (c : TaskConstraints) :
    validate_policy_values c = .ok () ↔
      (c.valid_next_nodes_policy ∈ policyTokens ∧
       c.valid_previous_nodes_policy ∈ policyTokens ∧
       c.valid_incoming_edges_policy ∈ policyTokens ∧
       c.valid_outgoing_edges_policy ∈ policyTokens) := by
  unfold validate_policy_values policyTokens
  dsimp only
  split_ifs with h1 h2 h3 h4 <;> simp_all [List.elem_iff]
  all_goals tauto

theorem validate_policy_nodes_ok_iff (c : TaskConstraints) :
    validate_policy_nodes c = .ok () ↔
      (¬ (c.valid_next_nodes_policy = "allow_none" ∧ c.valid_next_nodes ≠ []) ∧
       ¬ (c.valid_next_nodes_policy = "custom" ∧ c.valid_next_nodes = []) ∧
       ¬ (c.valid_previous_nodes_policy = "allow_none" ∧ c.valid_previous_nodes ≠ []) ∧
       ¬ (c.valid_previous_nodes_policy = "custom" ∧ c.valid_previous_nodes = []) ∧
       ¬ (c.valid_incoming_edges_policy = "allow_none" ∧ c.valid_incoming_edges ≠ []) ∧
       ¬ (c.valid_incoming_edges_policy = "custom" ∧ c.valid_incoming_edges = []) ∧
       ¬ (c.valid_outgoing_edges_policy = "allow_none" ∧ c.valid_outgoing_edges ≠ []) ∧
       ¬ (c.valid_outgoing_edges_policy = "custom" ∧ c.valid_outgoing_edges = [])) := by
  unfold validate_policy_nodes
  split_ifs with h1 h2 h3 h4 h5 h6 h7 h8 <;>
    simp_all [List.isEmpty_iff, List.isEmpty_eq_false]

theorem validate_ok_iff (c : TaskConstraints) :
    c.validate = .ok () ↔ ¬ constraintsInvalid c := by
  unfold TaskConstraints.validate
  have hmax : (match c.max_spawn_count with
               | some k => k != 0 && decide (k < 0)
               | none => false) = true ↔ (∃ k, c.max_spawn_count = some k ∧ k < 0) := by
    cases hm : c.max_spawn_count with
    | none => simp
    | some k =>
      simp only [Bool.and_eq_true, bne_iff_ne, decide_eq_true_eq]
      constructor
      · rintro ⟨-, hk⟩; exact ⟨k, rfl, hk⟩
      · rintro ⟨k', hk', hlt⟩
        injection hk' with hk'
        subst hk'
        exact ⟨by omega, hlt⟩
  split_ifs with hguard
  · rw [hmax] at hguard
    simp only [constraintsInvalid]
    constructor
    · intro h; cases h
    · intro hn; exact absurd (Or.inl hguard) hn
  · have hng : ¬ (∃ k, c.max_spawn_count = some k ∧ k < 0) := by
      intro hx
      exact hguard (hmax.mpr hx)
    cases hv : validate_policy_values c with
    | error e =>
      have : ¬ (c.valid_next_nodes_policy ∈ policyTokens ∧
          c.valid_previous_nodes_policy ∈ policyTokens ∧
          c.valid_incoming_edges_policy ∈ policyTokens ∧
          c.valid_outgoing_edges_policy ∈ policyTokens) := by
        intro hx
        rw [(validate_policy_values_ok_iff c).mpr hx] at hv
        cases hv
      simp only [constraintsInvalid]
      constructor
      · intro h; cases h
      · intro hn
        push_neg at hn
        exact absurd ⟨hn.2.1, hn.2.2.1, hn.2.2.2.1, hn.2.2.2.2.1⟩ this
    | ok u =>
      cases u
      have hvals := (validate_policy_values_ok_iff c).mp hv
      rw [validate_policy_nodes_ok_iff]
      simp only [constraintsInvalid]
      constructor
      · intro hnodes hinv
        rcases hinv with h | h | h | h | h | h | h | h | h | h | h | h | h
        · exact hng h
        · exact h hvals.1
        · exact h hvals.2.1
        · exact h hvals.2.2.1
        · exact h hvals.2.2.2
        · exact hnodes.1 h
        · exact hnodes.2.1 h
        · exact hnodes.2.2.1 h
        · exact hnodes.2.2.2.1 h
        · exact hnodes.2.2.2.2.1 h
        · exact hnodes.2.2.2.2.2.1 h
        · exact hnodes.2.2.2.2.2.2.1 h
        · exact hnodes.2.2.2.2.2.2.2 h
      · intro hn
        push_neg at hn
        obtain ⟨-, -, -, -, -, h6, h7, h8, h9, h10, h11, h12, h13⟩ := hn
        exact ⟨fun hx => hx.2 (h6 hx.1), fun hx => (h7 hx.1) hx.2,
          fun hx => hx.2 (h8 hx.1), fun hx => (h9 hx.1) hx.2,
          fun hx => hx.2 (h10 hx.1), fun hx => (h11 hx.1) hx.2,
          fun hx => hx.2 (h12 hx.1), fun hx => (h13 hx.1) hx.2⟩

/-! ### Status-write and `fail_workflow` lemmas -/

theorem setStatus_statusOf_self (st : Orch) (site t : String) (s : Status) :
    (st.setStatus site t s).statusOf t = s := by
  unfold Orch.setStatus Orch.statusOf
  simp [alookup_aset_self]

theorem setStatus_statusOf_ne (st : Orch) (site t : String) (s : Status)
    {t' : String} (h : t' ≠ t) :
    (st.setStatus site t s).statusOf t' = st.statusOf t' := by
  unfold Orch.setStatus Orch.statusOf
  simp [alookup_aset_ne _ _ _ _ h]

theorem failFlip_statusOf (acc : Orch) (p : String × Task) (t : String) :
    (failFlip acc p).statusOf t = acc.statusOf t ∨
    (failFlip acc p).statusOf t = .failed := by
  unfold failFlip
  split_ifs with h
  · by_cases ht : t = p.1
    · rw [ht]
      exact Or.inr (setStatus_statusOf_self acc "fail_workflow" p.1 .failed)
    · exact Or.inl (setStatus_statusOf_ne acc "fail_workflow" p.1 .failed ht)
  · exact Or.inl rfl

theorem failFlip_fields (acc : Orch) (p : String × Task) :
    (failFlip acc p).wf = acc.wf ∧
    (failFlip acc p).task_inputs = acc.task_inputs ∧
    (failFlip acc p).task_outputs = acc.task_outputs ∧
    (failFlip acc p).spawn_counts = acc.spawn_counts ∧
    (failFlip acc p).running_loop = acc.running_loop ∧
    (failFlip acc p).ready_queue = acc.ready_queue ∧
    (failFlip acc p).execution_history = acc.execution_history := by
  unfold failFlip
  split_ifs <;> exact ⟨rfl, rfl, rfl, rfl, rfl, rfl, rfl⟩

theorem foldl_failFlip_statusOf (L : List (String × Task)) (acc : Orch)
    (t : String) :
    ((L.foldl failFlip acc).statusOf t = acc.statusOf t) ∨
    ((L.foldl failFlip acc).statusOf t = .failed) := by
  induction L generalizing acc with
  | nil => exact Or.inl rfl
  | cons p rest ih =>
    rw [List.foldl_cons]
    rcases ih (failFlip acc p) with h | h
    · rw [h]; exact failFlip_statusOf acc p t
    · exact Or.inr h

theorem foldl_failFlip_fields (L : List (String × Task)) (acc : Orch) :
    (L.foldl failFlip acc).wf = acc.wf ∧
    (L.foldl failFlip acc).task_inputs = acc.task_inputs ∧
    (L.foldl failFlip acc).task_outputs = acc.task_outputs ∧
    (L.foldl failFlip acc).spawn_counts = acc.spawn_counts ∧
    (L.foldl failFlip acc).running_loop = acc.running_loop ∧
    (L.foldl failFlip acc).ready_queue = acc.ready_queue ∧
    (L.foldl failFlip acc).execution_history = acc.execution_history := by
  induction L generalizing acc with
  | nil => exact ⟨rfl, rfl, rfl, rfl, rfl, rfl, rfl⟩
  | cons p rest ih =>
    rw [List.foldl_cons]
    obtain ⟨e1, e2, e3, e4, e5, e6, e7⟩ := ih (failFlip acc p)
    obtain ⟨f1, f2, f3, f4, f5, f6, f7⟩ := failFlip_fields acc p
    exact ⟨e1.trans f1, e2.trans f2, e3.trans f3, e4.trans f4,
      e5.trans f5, e6.trans f6, e7.trans f7⟩

theorem foldl_failFlip_flips (L : List (String × Task)) (acc : Orch)
    (t : String) (hmem : t ∈ L.map Prod.fst) :
    (L.foldl failFlip acc).statusOf t ≠ .pending ∧
    (L.foldl failFlip acc).statusOf t ≠ .running := by
  induction L generalizing acc with
  | nil => simp at hmem
  | cons p rest ih =>
    rw [List.foldl_cons]
    rw [List.map_cons] at hmem
    rcases List.mem_cons.mp hmem with hh | hrest
    · have h1 : (failFlip acc p).statusOf t ≠ .pending ∧
          (failFlip acc p).statusOf t ≠ .running := by
        unfold failFlip
        split_ifs with hg
        · rw [hh, setStatus_statusOf_self]
          exact ⟨by simp, by simp⟩
        · rw [hh]
          push_neg at hg
          exact hg
      rcases foldl_failFlip_statusOf rest (failFlip acc p) t with h | h
      · rw [h]; exact h1
      · rw [h]; exact ⟨by simp, by simp⟩
    · exact ih (failFlip acc p) hrest


theorem fail_workflow_effects (st : Orch) (wf_id emsg : String) :
    (st.fail_workflow wf_id emsg).2 = .abortExc (abortMsg wf_id emsg) ∧
    AbortEffects st (st.fail_workflow wf_id emsg).1 wf_id (abortMsg wf_id emsg) ∧
    (st.fail_workflow wf_id emsg).1.wf = st.wf ∧
    (st.fail_workflow wf_id emsg).1.task_outputs = st.task_outputs ∧
    (st.fail_workflow wf_id emsg).1.spawn_counts = st.spawn_counts := by
  unfold Orch.fail_workflow
  obtain ⟨e1, e2, e3, e4, e5, e6, e7⟩ :=
    foldl_failFlip_fields st.wf.tasks { st with ready_queue := [] }
  refine ⟨rfl, ⟨?_, rfl, ?_, ?_, ⟨emsg, rfl⟩⟩, e1, e3, e4⟩
  · exact e6
  · intro t hmem
    have hmem' : t ∈ st.wf.tasks.map Prod.fst := by
      have : Orch.taskIds _ = (st.wf.tasks.foldl failFlip
          { st with ready_queue := [] }).wf.tasks.map Prod.fst := rfl
      rw [Orch.taskIds] at hmem
      simp only at hmem
      rw [e1] at hmem
      exact hmem
    exact foldl_failFlip_flips st.wf.tasks { st with ready_queue := [] } t hmem'
  · intro t hmem hpr
    have hflip := foldl_failFlip_flips st.wf.tasks { st with ready_queue := [] } t hmem
    rcases foldl_failFlip_statusOf st.wf.tasks { st with ready_queue := [] } t with h | h
    · have : Orch.statusOf { st with ready_queue := [] } t = st.statusOf t := rfl
      rw [this] at h
      rcases hpr with hp | hp
      · exact absurd (h.trans hp) hflip.1
      · exact absurd (h.trans hp) hflip.2
    · exact h

/-- Transport abort effects through earlier mutations that preserve task
ids and statuses. -/
theorem AbortEffects_mono {stPre stMid st' : Orch} {wf_id msg : String}
    (h : AbortEffects stMid st' wf_id msg)
    (hids : ∀ t, t ∈ stPre.taskIds → t ∈ stMid.taskIds)
    (hst : ∀ t, t ∈ stPre.taskIds → stMid.statusOf t = stPre.statusOf t) :
    AbortEffects stPre st' wf_id msg := by
  obtain ⟨h1, h2, h3, h4, h5⟩ := h
  refine ⟨h1, h2, h3, ?_, h5⟩
  intro t hmem hpr
  exact h4 t (hids t hmem) (by rw [hst t hmem]; exact hpr)

/-! ### `addNewEdges` composition lemmas -/

theorem addNewEdges_ok (wf_id cid nid : String) :
    ∀ (L : List (String × String)) (st st' : Orch),
    Orch.addNewEdges st wf_id cid nid L = (st', none) →
    st'.task_status = st.task_status ∧
    st'.task_inputs = st.task_inputs ∧
    st'.task_outputs = st.task_outputs ∧
    st'.spawn_counts = st.spawn_counts ∧
    st'.running_loop = st.running_loop ∧
    st'.ready_queue = st.ready_queue ∧
    st'.execution_history = st.execution_history ∧
    st'.events = st.events ∧
    st'.wf.tasks = st.wf.tasks ∧
    st'.wf.workflow_id = st.wf.workflow_id := by
  intro L
  induction L with
  | nil =>
    intro st st' h
    unfold Orch.addNewEdges at h
    injection h with h1 h2
    subst h1
    exact ⟨rfl, rfl, rfl, rfl, rfl, rfl, rfl, rfl, rfl, rfl⟩
  | cons e rest ih =>
    intro st st' h
    unfold Orch.addNewEdges at h
    split at h
    · injection h with h1 h2; cases h2
    · split at h
      · split at h
        · injection h with h1 h2; cases h2
        · obtain ⟨g1, g2, g3, g4, g5, g6, g7, g8, g9, g10⟩ := ih _ _ h
          exact ⟨g1, g2, g3, g4, g5, g6, g7, g8, g9, g10⟩
      · injection h with h1 h2; cases h2

theorem addNewEdges_abort (wf_id cid nid : String) :
    ∀ (L : List (String × String)) (st st' : Orch) (msg : String),
    Orch.addNewEdges st wf_id cid nid L = (st', some (.abortExc msg)) →
    AbortEffects st st' wf_id msg := by
  intro L
  induction L with
  | nil =>
    intro st st' msg h
    unfold Orch.addNewEdges at h
    injection h with h1 h2
    cases h2
  | cons e rest ih =>
    intro st st' msg h
    unfold Orch.addNewEdges at h
    split at h
    · injection h with h1 h2
      subst h1
      injection h2 with h2
      obtain ⟨hf1, hf2, hf3, hf4, hf5⟩ := fail_workflow_effects st wf_id _
      rw [hf1] at h2
      injection h2 with h2
      rw [h2] at hf2
      exact hf2
    · split at h
      · split at h
        · injection h with h1 h2
          subst h1
          injection h2 with h2
          obtain ⟨hf1, hf2, hf3, hf4, hf5⟩ := fail_workflow_effects st wf_id _
          rw [hf1] at h2
          injection h2 with h2
          rw [h2] at hf2
          exact hf2
        · have hmid := ih _ _ _ h
          exact AbortEffects_mono hmid (fun t ht => ht) (fun t ht => rfl)
      · injection h with h1 h2; cases h2

/-- C9: constraint-record construction fails exactly on the claimed
conditions (a constraint-model error, no record produced), and a record
passing every check is constructed as given. -/
theorem c9_constraints_validation (c : TaskConstraints) :
    ((∃ e, TaskConstraints.make c = .error e) ↔ constraintsInvalid c) ∧
    (¬ constraintsInvalid c → TaskConstraints.make c = .ok c) := by
  constructor
  · constructor
    · rintro ⟨e, he⟩
      by_contra hnot
      have hok := (validate_ok_iff c).mpr hnot
      unfold TaskConstraints.make at he
      rw [hok] at he
      cases he
    · intro hinv
      unfold TaskConstraints.make
      cases hv : c.validate with
      | error e => exact ⟨e, rfl⟩
      | ok u =>
        cases u
        exact absurd hinv ((validate_ok_iff c).mp hv)
  · intro hnot
    unfold TaskConstraints.make
    rw [(validate_ok_iff c).mpr hnot]

/-! ### `spawnInsert` lemmas -/

theorem spawnInsert_statusOf_ne (st : Orch) (creator : String) (nt : Task)
    (skipv : Bool) {t : String} (h : t ≠ nt.task_id) :
    (st.spawnInsert creator nt skipv).statusOf t = st.statusOf t := by
  unfold Orch.spawnInsert Orch.setStatus Orch.statusOf
  split_ifs <;> simp [alookup_aset_ne _ _ _ _ h]

theorem spawnInsert_statusOf_new (st : Orch) (creator : String) (nt : Task)
    (skipv : Bool) :
    (st.spawnInsert creator nt skipv).statusOf nt.task_id = .pending := by
  unfold Orch.spawnInsert Orch.setStatus Orch.statusOf
  split_ifs <;> simp [alookup_aset_self]

theorem spawnInsert_taskIds (st : Orch) (creator : String) (nt : Task)
    (skipv : Bool) :
    (st.spawnInsert creator nt skipv).taskIds = st.taskIds ++ [nt.task_id] := by
  unfold Orch.spawnInsert Orch.taskIds Orch.setStatus
  split_ifs <;> simp

theorem spawnInsert_fields (st : Orch) (creator : String) (nt : Task)
    (skipv : Bool) :
    (st.spawnInsert creator nt skipv).ready_queue = st.ready_queue ∧
    (st.spawnInsert creator nt skipv).running_loop = st.running_loop ∧
    (st.spawnInsert creator nt skipv).task_outputs = st.task_outputs ∧
    (st.spawnInsert creator nt skipv).task_inputs = st.task_inputs ∧
    (st.spawnInsert creator nt skipv).wf.edges = st.wf.edges ∧
    (st.spawnInsert creator nt skipv).wf.workflow_id = st.wf.workflow_id ∧
    (st.spawnInsert creator nt skipv).wf.tasks =
      st.wf.tasks ++ [(nt.task_id, nt)] := by
  unfold Orch.spawnInsert Orch.setStatus
  split_ifs <;> exact ⟨rfl, rfl, rfl, rfl, rfl, rfl, rfl⟩

theorem spawnInsert_task_status (st : Orch) (creator : String) (nt : Task)
    (skipv : Bool) :
    (st.spawnInsert creator nt skipv).task_status =
      aset st.task_status nt.task_id .pending := by
  unfold Orch.spawnInsert Orch.setStatus
  split_ifs <;> rfl

theorem spawnInsert_events (st : Orch) (creator : String) (nt : Task)
    (skipv : Bool) (h : alookup st.task_status nt.task_id = none) :
    (st.spawnInsert creator nt skipv).events = st.events := by
  unfold Orch.spawnInsert Orch.setStatus
  split_ifs <;> simp [h]

theorem spawnInsert_countOf_creator (st : Orch) (creator : String) (nt : Task)
    (skipv : Bool) (hne : creator ≠ nt.task_id) :
    (st.spawnInsert creator nt skipv).countOf creator = st.countOf creator + 1 := by
  unfold Orch.spawnInsert Orch.setStatus Orch.countOf
  split_ifs <;>
    simp [alookup_aset_self, alookup_aset_ne _ _ _ _ hne]

theorem spawnInsert_countOf_new (st : Orch) (creator : String) (nt : Task)
    (skipv : Bool) (hne : creator ≠ nt.task_id) :
    (st.spawnInsert creator nt skipv).countOf nt.task_id = 0 := by
  unfold Orch.spawnInsert Orch.setStatus Orch.countOf
  split_ifs <;>
    simp [alookup_aset_self, alookup_aset_ne _ _ _ _ (Ne.symm hne)]

theorem spawnInsert_countOf_other (st : Orch) (creator : String) (nt : Task)
    (skipv : Bool) {t : String} (h1 : t ≠ creator) (h2 : t ≠ nt.task_id) :
    (st.spawnInsert creator nt skipv).countOf t = st.countOf t := by
  unfold Orch.spawnInsert Orch.setStatus Orch.countOf
  split_ifs <;>
    simp [alookup_aset_ne _ _ _ _ h1, alookup_aset_ne _ _ _ _ h2]

/-! ## Claim C3: any `spawn_task` precondition failure aborts the workflow -/

/-- C3: whenever `spawn_task` raises the abort error (any precondition
failure: unknown creator, spawn quota, node policy, duplicate id, unrelated
edge endpoint, edge policy, or cycle), the resulting state has an empty
ready queue, no `pending` or `running` task, a cleared `running_loop` flag;
every task that was `pending`/`running` at entry is now `failed`, and the
raised message carries the specific violation. -/
theorem c3_spawn_failure_aborts_workflow
    (st : Orch) (wf_id creator : String) (nt : Task)
    (ne : List (String × String)) (inp : Option Value) (skipv : Bool)
    (st' : Orch) (msg : String)
    (h : st.spawn_task wf_id creator nt ne inp skipv = (st', some (.abortExc msg))) :
    st'.ready_queue = [] ∧
    st'.running_loop = false ∧
    (∀ t, t ∈ st'.taskIds → st'.statusOf t ≠ .pending ∧ st'.statusOf t ≠ .running) ∧
    (∀ t, t ∈ st.taskIds →
      (st.statusOf t = .pending ∨ st.statusOf t = .running) →
      st'.statusOf t = .failed) ∧
    (∃ em, msg = abortMsg wf_id em) := by
  show AbortEffects st st' wf_id msg
  unfold Orch.spawn_task at h
  split at h
  case h_1 =>
    injection h with h1 h2
    subst h1
    injection h2 with h2
    obtain ⟨hf1, hf2, -, -, -⟩ := fail_workflow_effects st wf_id _
    rw [hf1] at h2
    injection h2 with h2
    rw [h2] at hf2
    exact hf2
  case h_2 creator_obj hcre =>
    split at h
    · -- spawn-count quota failure
      injection h with h1 h2
      subst h1
      injection h2 with h2
      obtain ⟨hf1, hf2, -, -, -⟩ := fail_workflow_effects st wf_id _
      rw [hf1] at h2
      injection h2 with h2
      rw [h2] at hf2
      exact hf2
    · split at h
      · -- node-policy failure
        injection h with h1 h2
        subst h1
        injection h2 with h2
        obtain ⟨hf1, hf2, -, -, -⟩ := fail_workflow_effects st wf_id _
        rw [hf1] at h2
        injection h2 with h2
        rw [h2] at hf2
        exact hf2
      · split at h
        · -- duplicate-id failure
          injection h with h1 h2
          subst h1
          injection h2 with h2
          obtain ⟨hf1, hf2, -, -, -⟩ := fail_workflow_effects st wf_id _
          rw [hf1] at h2
          injection h2 with h2
          rw [h2] at hf2
          exact hf2
        · -- insertion happened; remaining aborts come from `addNewEdges`
          -- or the cycle check
          rename_i hdup
          have hnidmem : nt.task_id ∉ st.taskIds := by
            intro hmem
            exact hdup ((alookup_isSome_iff_mem st.wf.tasks nt.task_id).mpr hmem)
          have hids : ∀ t, t ∈ st.taskIds →
              t ∈ (st.spawnInsert creator nt skipv).taskIds := by
            intro t ht
            rw [spawnInsert_taskIds]
            exact List.mem_append_left _ ht
          have hst : ∀ t, t ∈ st.taskIds →
              (st.spawnInsert creator nt skipv).statusOf t = st.statusOf t := by
            intro t ht
            exact spawnInsert_statusOf_ne st creator nt skipv
              (fun hx => hnidmem (hx ▸ ht))
          rcases hAN : Orch.addNewEdges (st.spawnInsert creator nt skipv)
              wf_id creator nt.task_id ne with ⟨st7, e7⟩
          cases e7 with
          | some e7v =>
            simp only [hAN] at h
            injection h with h1 h2
            subst h1
            injection h2 with h2
            subst h2
            exact AbortEffects_mono
              (addNewEdges_abort wf_id creator nt.task_id ne _ _ _ hAN) hids hst
          | none =>
            simp only [hAN] at h
            rcases Bool.eq_false_or_eq_true
                (is_directed_acyclic_graph (st7.wf.tasks.map Prod.fst)
                  st7.wf.edges) with hacy | hacy
            · -- success branch cannot produce an exception
              exfalso
              have hsnd := congrArg Prod.snd h
              rw [hacy] at hsnd
              simp only [Bool.not_true] at hsnd
              cases inp <;> simp at hsnd
            · -- cycle failure
              rw [hacy] at h
              simp only [Bool.not_false, if_pos] at h
              injection h with h1 h2
              subst h1
              injection h2 with h2
              obtain ⟨hf1, hf2, -, -, -⟩ := fail_workflow_effects st7 wf_id _
              rw [hf1] at h2
              injection h2 with h2
              rw [h2] at hf2
              obtain ⟨g1, -, -, -, -, -, -, -, g9, -⟩ :=
                addNewEdges_ok wf_id creator nt.task_id ne _ _ hAN
              refine AbortEffects_mono (AbortEffects_mono hf2 ?_ ?_) hids hst
              · intro t ht
                unfold Orch.taskIds at ht ⊢
                rw [g9]
                exact ht
              · intro t ht
                unfold Orch.statusOf
                rw [g1]

/-! ### Acyclicity: soundness of the Kahn-elimination check -/

theorem chainPairs_pred (y0 : String) (rest : List String) :
    ∀ v ∈ rest, ∃ u, u ∈ y0 :: rest ∧ (u, v) ∈ chainPairs (y0 :: rest) := by
  induction rest generalizing y0 with
  | nil => intro v hv; simp at hv
  | cons y1 rest2 ih =>
    intro v hv
    rcases List.mem_cons.mp hv with h1 | h2
    · refine ⟨y0, List.mem_cons_self _ _, ?_⟩
      rw [h1]
      exact List.mem_cons_self _ _
    · obtain ⟨u, hu, hp⟩ := ih y1 v h2
      exact ⟨u, List.mem_cons_of_mem _ hu, List.mem_cons_of_mem _ hp⟩

/-- Every vertex of a cycle has a predecessor inside the cycle. -/
theorem cycle_pred (edges : List (String × String)) (l : List String)
    (hc : isCycleB edges l = true) :
    ∀ v ∈ l, ∃ u, u ∈ l ∧ (u, v) ∈ edges := by
  match l with
  | [] => simp [isCycleB] at hc
  | a :: tl =>
    intro v hv
    have hv' : v ∈ tl ++ [a] := by
      rcases List.mem_cons.mp hv with h | h
      · exact List.mem_append_right _ (by simp [h])
      · exact List.mem_append_left _ h
    obtain ⟨u, hu, hp⟩ := chainPairs_pred a (tl ++ [a]) v hv'
    have hall : ∀ p ∈ chainPairs ((a :: tl) ++ [a]), edges.contains p = true := by
      simp only [isCycleB, List.all_eq_true] at hc
      exact hc
    have hedge : (u, v) ∈ edges := by
      have hcp : (u, v) ∈ chainPairs ((a :: tl) ++ [a]) := by
        simpa using hp
      exact List.elem_iff.mp (hall (u, v) hcp)
    have hu' : u ∈ a :: tl := by
      rcases List.mem_cons.mp hu with h | h
      · rw [h]
        exact List.mem_cons_self _ _
      · rcases List.mem_append.mp h with h2 | h2
        · exact List.mem_cons_of_mem _ h2
        · simp only [List.mem_singleton] at h2
          rw [h2]
          exact List.mem_cons_self _ _
    exact ⟨u, hu', hedge⟩

theorem kahnElim_false_of_cycle (edges : List (String × String))
    (l : List String) (hc : isCycleB edges l = true) :
    ∀ (fuel : Nat) (nodes : List String),
    (∀ v ∈ l, v ∈ nodes) → kahnElim edges fuel nodes = false := by
  have hl : l ≠ [] := by
    intro hnil
    rw [hnil] at hc
    simp [isCycleB] at hc
  have hpred := cycle_pred edges l hc
  obtain ⟨v0, hv0⟩ := List.exists_mem_of_ne_nil l hl
  intro fuel
  induction fuel with
  | zero =>
    intro nodes hsub
    have : nodes ≠ [] := List.ne_nil_of_mem (hsub v0 hv0)
    unfold kahnElim
    simpa using this
  | succ n ih =>
    intro nodes hsub
    have hne : nodes ≠ [] := List.ne_nil_of_mem (hsub v0 hv0)
    unfold kahnElim
    rw [if_neg (by simpa using hne)]
    have hsub' : ∀ v ∈ l,
        v ∈ nodes.filter (fun v => hasIncomingEdge edges nodes v) := by
      intro v hv
      obtain ⟨u, hu, he⟩ := hpred v hv
      refine List.mem_filter.mpr ⟨hsub v hv, ?_⟩
      unfold hasIncomingEdge
      rw [List.any_eq_true]
      refine ⟨(u, v), he, ?_⟩
      simp [List.elem_iff, hsub u hu]
    by_cases hlen : ((nodes.filter (fun v => hasIncomingEdge edges nodes v)).length
        == nodes.length) = true
    · rw [if_pos hlen]
    · rw [if_neg hlen]
      exact ih _ hsub'

/-- Soundness of `is_directed_acyclic_graph`: if the check succeeds there
is no directed cycle among the edges. -/
theorem no_cycle_of_is_dag (taskKeys : List String)
    (edges : List (String × String))
    (h : is_directed_acyclic_graph taskKeys edges = true) :
    ∀ l, isCycleB edges l = false := by
  intro l
  cases hb : isCycleB edges l with
  | false => rfl
  | true =>
    exfalso
    have hsub : ∀ v ∈ l, v ∈ graphNodes taskKeys edges := by
      intro v hv
      obtain ⟨u, hu, he⟩ := cycle_pred edges l hb v hv
      unfold graphNodes
      apply List.mem_dedup.mpr
      apply List.mem_append_right
      rw [List.mem_flatMap]
      exact ⟨(u, v), he, by simp⟩
    have hfalse := kahnElim_false_of_cycle edges l hb
      (graphNodes taskKeys edges).length (graphNodes taskKeys edges) hsub
    unfold is_directed_acyclic_graph at h
    rw [hfalse] at h
    cases h

/-! ## Claim C5: acyclicity after successful `add_task` and `spawn_task` -/

/-- C5: after every `add_task` and every `spawn_task` that returns without
error, the directed graph of the workflow's `edges` has no cycle. -/
theorem c5_graph_acyclic_after_success :
    (∀ (wf : Workflow) (task : Task) (deps : List String) (wf' : Workflow),
      wf.add_task task deps = .ok wf' →
      ∀ l, isCycleB wf'.edges l = false) ∧
    (∀ (st : Orch) (wf_id creator : String) (nt : Task)
      (ne : List (String × String)) (inp : Option Value) (skipv : Bool)
      (st' : Orch),
      st.spawn_task wf_id creator nt ne inp skipv = (st', none) →
      ∀ l, isCycleB st'.wf.edges l = false) := by
  constructor
  · intro wf task deps wf' h
    unfold Workflow.add_task at h
    split at h
    · cases h
    · cases hAD : addDeps
          { wf with tasks := wf.tasks ++ [(task.task_id, task)] } task deps with
      | error e =>
        simp only [hAD] at h
        cases h
      | ok wf2 =>
        simp only [hAD] at h
        rcases Bool.eq_false_or_eq_true
            (is_directed_acyclic_graph (wf2.tasks.map Prod.fst) wf2.edges)
          with hdag | hdag
        · rw [hdag, if_pos rfl] at h
          injection h with h
          subst h
          exact no_cycle_of_is_dag _ _ hdag
        · rw [hdag] at h
          rw [if_neg (by simp)] at h
          cases h
  · intro st wf_id creator nt ne inp skipv st' h
    unfold Orch.spawn_task at h
    split at h
    case h_1 =>
      exfalso
      injection h with h1 h2
      cases h2
    case h_2 creator_obj hcre =>
      split at h
      · exfalso; injection h with h1 h2; cases h2
      · split at h
        · exfalso; injection h with h1 h2; cases h2
        · split at h
          · exfalso; injection h with h1 h2; cases h2
          · rcases hAN : Orch.addNewEdges (st.spawnInsert creator nt skipv)
                wf_id creator nt.task_id ne with ⟨st7, e7⟩
            cases e7 with
            | some e7v =>
              exfalso
              simp only [hAN] at h
              injection h with h1 h2
              cases h2
            | none =>
              simp only [hAN] at h
              rcases Bool.eq_false_or_eq_true
                  (is_directed_acyclic_graph (st7.wf.tasks.map Prod.fst)
                    st7.wf.edges) with hacy | hacy
              · -- success branch: the cycle check passed on exactly these edges
                rw [hacy] at h
                simp only [Bool.not_true] at h
                rw [if_neg (by simp)] at h
                injection h with h1 h2
                have hedges : st'.wf.edges = st7.wf.edges := by
                  rw [← h1]
                  cases inp with
                  | none => rfl
                  | some d =>
                    by_cases hdeps :
                        (st7.wf.edges.any fun e => e.2 == nt.task_id) = true
                    · simp only [hdeps, if_pos]
                    · simp only [hdeps]
                      rw [if_neg (by simp [hdeps])]
                      rfl
                rw [hedges]
                exact no_cycle_of_is_dag _ _ hacy
              · exfalso
                rw [hacy] at h
                simp only [Bool.not_false, if_pos] at h
                injection h with h1 h2
                cases h2

/-! ### Invariant machinery -/

theorem alookup_map_const {α β : Type} (l : List (String × α)) (c : β)
    (k : String) :
    alookup (l.map (fun p => (p.1, c))) k =
      if k ∈ l.map Prod.fst then some c else none := by
  induction l with
  | nil => simp [alookup]
  | cons p rest ih =>
    by_cases hp : p.1 = k
    · simp [alookup, hp]
    · simp only [List.map, alookup, if_neg hp, ih, List.mem_cons]
      by_cases hm : k ∈ rest.map Prod.fst
      · rw [if_pos hm, if_pos (Or.inr hm)]
      · rw [if_neg hm, if_neg ?_]
        rintro (hx | hx)
        · exact hp hx.symm
        · exact hm hx

/-- Transport `Inv` across a state whose relevant fields are unchanged
(queue, inputs, history, loop flag and edges are not constrained). -/
theorem Inv.of_fields_eq {st st' : Orch} (h : Inv st)
    (htasks : st'.wf.tasks = st.wf.tasks)
    (hstatus : st'.task_status = st.task_status)
    (houtputs : st'.task_outputs = st.task_outputs)
    (hcounts : st'.spawn_counts = st.spawn_counts)
    (hevents : st'.events = st.events) : Inv st' := by
  have hids : st'.taskIds = st.taskIds := by
    unfold Orch.taskIds; rw [htasks]
  have hso : ∀ t, st'.statusOf t = st.statusOf t := by
    intro t; unfold Orch.statusOf; rw [hstatus]
  have hco : ∀ t, st'.countOf t = st.countOf t := by
    intro t; unfold Orch.countOf; rw [hcounts]
  have hsc : ∀ t, succCount st' t = succCount st t := by
    intro t; unfold succCount; rw [hevents]
  have hic : ∀ t, invokeCount st' t = invokeCount st t := by
    intro t; unfold invokeCount; rw [hevents]
  refine ⟨?_, ?_, ?_, ?_, ?_, ?_, ?_, ?_, ?_, ?_, ?_, ?_, ?_, ?_⟩
  · intro t ht; rw [hids]; exact h.status_keys t (by rw [hstatus] at ht; exact ht)
  · intro t ht; rw [hids]; exact h.counts_keys t (by rw [hcounts] at ht; exact ht)
  · intro t ht; rw [hids]; exact h.outputs_keys t (by rw [houtputs] at ht; exact ht)
  · intro t ht; rw [hso]
    exact h.outputs_terminal t (by rw [houtputs] at ht; exact ht)
  · rw [htasks]; exact h.keys_nodup
  · intro t ht; rw [hids]; exact h.success_mem t (by rw [hevents] at ht; exact ht)
  · intro t; rw [hsc, hco]; exact h.succ_le_count t
  · intro t task hmem k hk
    rw [hco]
    exact h.count_le_max t task (by rw [htasks] at hmem; exact hmem) k hk
  · intro t ht; rw [hids]; exact h.invoke_mem t (by rw [hevents] at ht; exact ht)
  · intro t; rw [hic]; exact h.invoke_once t
  · intro t ht; rw [hso]
    exact h.invoke_started t (by rw [hevents] at ht; exact ht)
  · intro site t o n hmem ho
    exact h.terminal_sticky site t o n (by rw [hevents] at hmem; exact hmem) ho
  · intro t ht; exact h.no_overwrite t (by rw [hevents] at ht; exact ht)
  · intro p c hpc; exact h.no_enq_violation p c (by rw [hevents] at hpc; exact hpc)

/-- `register_workflow` establishes the lifetime invariant for any
workflow with unique task ids. -/
theorem inv_register (wf : Workflow)
    (hn : (wf.tasks.map Prod.fst).Nodup) : Inv (register_workflow wf) := by
  refine ⟨?_, ?_, ?_, ?_, ?_, ?_, ?_, ?_, ?_, ?_, ?_, ?_, ?_, ?_⟩
  · intro t ht
    unfold register_workflow at ht
    simp only at ht
    rw [alookup_map_const] at ht
    by_cases hm : t ∈ wf.tasks.map Prod.fst
    · exact hm
    · rw [if_neg hm] at ht; simp at ht
  · intro t ht
    unfold register_workflow at ht
    simp only at ht
    rw [alookup_map_const] at ht
    by_cases hm : t ∈ wf.tasks.map Prod.fst
    · exact hm
    · rw [if_neg hm] at ht; simp at ht
  · intro t ht; simp [register_workflow, alookup] at ht
  · intro t ht; simp [register_workflow, alookup] at ht
  · exact hn
  · intro t ht; simp [register_workflow] at ht
  · intro t
    have : succCount (register_workflow wf) t = 0 := by
      simp [succCount, register_workflow]
    rw [this]
    exact Nat.zero_le _
  · intro t task hmem k hk
    right
    unfold Orch.countOf register_workflow
    simp only
    rw [alookup_map_const]
    split_ifs <;> rfl
  · intro t ht; simp [register_workflow] at ht
  · intro t
    have : invokeCount (register_workflow wf) t = 0 := by
      simp [invokeCount, register_workflow]
    rw [this]
    exact Nat.zero_le _
  · intro t ht; simp [register_workflow] at ht
  · intro site t o n hmem ho; simp [register_workflow] at hmem
  · intro t ht; simp [register_workflow] at ht
  · intro p c hpc; simp [register_workflow] at hpc

theorem inv_complete_task (st : Orch) (tid : String) (v : Value)
    (h : Inv st) : Inv (st.complete_task tid v).1 := by
  unfold Orch.complete_task
  split
  · exact h
  · rename_i s hs
    split_ifs with hterm
    · exact h
    · -- `s` is `running` or `pending`, the task is marked `done` and the
      -- output stored
      have hpr : s = .running ∨ s = .pending := by
        by_cases h1 : s = .running
        · exact Or.inl h1
        · by_cases h2 : s = .pending
          · exact Or.inr h2
          · exact absurd ⟨h1, h2⟩ hterm
      have htid : tid ∈ st.taskIds :=
        h.status_keys tid (by rw [hs]; rfl)
      have hsold : st.statusOf tid = s := by
        unfold Orch.statusOf; rw [hs]; rfl
      have hnotdone : s ≠ Status.done := by
        rcases hpr with h1 | h1 <;> (rw [h1]; intro hx; cases hx)
      have houtnone : alookup st.task_outputs tid = none := by
        cases ho : alookup st.task_outputs tid with
        | none => rfl
        | some w =>
          exfalso
          have := h.outputs_terminal tid (by rw [ho]; rfl)
          rw [hsold] at this
          rcases hpr with h1 | h1 <;> (rw [h1] at this; cases this)
      -- the two writes
      have hev : ((st.setStatus "complete_task" tid .done).setOutput tid v).events
          = st.events ++ [Event.statusChange "complete_task" tid s .done] := by
        unfold Orch.setStatus Orch.setOutput
        simp only [hs, houtnone]
        rw [if_neg hnotdone]
        simp
      have hstat : ((st.setStatus "complete_task" tid .done).setOutput tid v).task_status
          = aset st.task_status tid .done := by
        unfold Orch.setStatus Orch.setOutput
        simp only
      have hout : ((st.setStatus "complete_task" tid .done).setOutput tid v).task_outputs
          = aset st.task_outputs tid v := by
        unfold Orch.setStatus Orch.setOutput
        simp only
      have htasks : ((st.setStatus "complete_task" tid .done).setOutput tid v).wf.tasks
          = st.wf.tasks := rfl
      have hcounts : ((st.setStatus "complete_task" tid .done).setOutput tid v).spawn_counts
          = st.spawn_counts := rfl
      have hids : ((st.setStatus "complete_task" tid .done).setOutput tid v).taskIds
          = st.taskIds := rfl
      have hso : ∀ t, t ≠ tid →
          ((st.setStatus "complete_task" tid .done).setOutput tid v).statusOf t
            = st.statusOf t := by
        intro t ht
        unfold Orch.statusOf
        rw [hstat, alookup_aset_ne _ _ _ _ ht]
      have hsotid :
          ((st.setStatus "complete_task" tid .done).setOutput tid v).statusOf tid
            = .done := by
        unfold Orch.statusOf
        rw [hstat, alookup_aset_self]
        rfl
      refine ⟨?_, ?_, ?_, ?_, ?_, ?_, ?_, ?_, ?_, ?_, ?_, ?_, ?_, ?_⟩
      · intro t ht
        rw [hstat] at ht
        rw [hids]
        rcases alookup_aset_isSome _ _ _ _ ht with h1 | h1
        · exact h.status_keys t h1
        · rw [h1]; exact htid
      · intro t ht
        rw [hcounts] at ht
        rw [hids]
        exact h.counts_keys t ht
      · intro t ht
        rw [hout] at ht
        rw [hids]
        rcases alookup_aset_isSome _ _ _ _ ht with h1 | h1
        · exact h.outputs_keys t h1
        · rw [h1]; exact htid
      · intro t ht
        rw [hout] at ht
        by_cases h1 : t = tid
        · rw [h1, hsotid]; rfl
        · rw [alookup_aset_ne _ _ _ _ h1] at ht
          rw [hso t h1]
          exact h.outputs_terminal t ht
      · rw [htasks]; exact h.keys_nodup
      · intro t ht
        rw [hev] at ht
        rw [hids]
        rcases List.mem_append.mp ht with h1 | h1
        · exact h.success_mem t h1
        · simp at h1
      · intro t
        have h1 : succCount ((st.setStatus "complete_task" tid .done).setOutput tid v) t
            = succCount st t := by
          unfold succCount
          rw [hev, List.countP_append]
          simp
        have h2 : Orch.countOf ((st.setStatus "complete_task" tid .done).setOutput tid v) t
            = st.countOf t := by
          unfold Orch.countOf
          rw [hcounts]
        rw [h1, h2]
        exact h.succ_le_count t
      · intro t task hmem k hk
        have h2 : Orch.countOf ((st.setStatus "complete_task" tid .done).setOutput tid v) t
            = st.countOf t := by
          unfold Orch.countOf
          rw [hcounts]
        rw [h2]
        exact h.count_le_max t task (by rw [htasks] at hmem; exact hmem) k hk
      · intro t ht
        rw [hev] at ht
        rw [hids]
        rcases List.mem_append.mp ht with h1 | h1
        · exact h.invoke_mem t h1
        · simp at h1
      · intro t
        have h1 : invokeCount ((st.setStatus "complete_task" tid .done).setOutput tid v) t
            = invokeCount st t := by
          unfold invokeCount
          rw [hev, List.countP_append]
          simp
        rw [h1]
        exact h.invoke_once t
      · intro t ht
        rw [hev] at ht
        rcases List.mem_append.mp ht with h1 | h1
        · by_cases h2 : t = tid
          · rw [h2, hsotid]; intro hx; cases hx
          · rw [hso t h2]; exact h.invoke_started t h1
        · simp at h1
      · intro site t o n hmem ho
        rw [hev] at hmem
        rcases List.mem_append.mp hmem with h1 | h1
        · exact h.terminal_sticky site t o n h1 ho
        · simp only [List.mem_singleton] at h1
          exfalso
          injection h1 with e1 e2 e3 e4
          rw [e3] at ho
          rcases hpr with h2 | h2 <;> (rw [h2] at ho; cases ho)
      · intro t ht
        rw [hev] at ht
        rcases List.mem_append.mp ht with h1 | h1
        · exact h.no_overwrite t h1
        · simp at h1
      · intro p c hpc
        rw [hev] at hpc
        rcases List.mem_append.mp hpc with h1 | h1
        · exact h.no_enq_violation p c h1
        · simp at h1

/-- Extend the invariant across an operation that only appends "harmless"
events (no invocation, no overwrite, no queue violation, no successful
spawn, no status change out of a terminal status) and leaves the
constrained fields unchanged. -/
theorem Inv.extend_irrelevant {st st' : Orch} (h : Inv st) (L : List Event)
    (htasks : st'.wf.tasks = st.wf.tasks)
    (hstatus : st'.task_status = st.task_status)
    (houtputs : st'.task_outputs = st.task_outputs)
    (hcounts : st'.spawn_counts = st.spawn_counts)
    (hevents : st'.events = st.events ++ L)
    (hL : ∀ e ∈ L, (∀ t, e ≠ .invoke t) ∧ (∀ t, e ≠ .outputOverwrite t) ∧
      (∀ p c, e ≠ .enqViolation p c) ∧ (∀ t, e ≠ .spawnSuccess t) ∧
      (∀ site t o n, e = .statusChange site t o n → o.terminal = false)) :
    Inv st' := by
  have hids : st'.taskIds = st.taskIds := by
    unfold Orch.taskIds; rw [htasks]
  have hso : ∀ t, st'.statusOf t = st.statusOf t := by
    intro t; unfold Orch.statusOf; rw [hstatus]
  have hco : ∀ t, st'.countOf t = st.countOf t := by
    intro t; unfold Orch.countOf; rw [hcounts]
  have hsc : ∀ t, succCount st' t = succCount st t := by
    intro t
    unfold succCount
    rw [hevents, List.countP_append]
    have : L.countP (fun e => e == Event.spawnSuccess t) = 0 := by
      rw [List.countP_eq_zero]
      intro e he
      simp only [beq_iff_eq]
      exact (hL e he).2.2.2.1 t
    rw [this, Nat.add_zero]
  have hic : ∀ t, invokeCount st' t = invokeCount st t := by
    intro t
    unfold invokeCount
    rw [hevents, List.countP_append]
    have : L.countP (fun e => e == Event.invoke t) = 0 := by
      rw [List.countP_eq_zero]
      intro e he
      simp only [beq_iff_eq]
      exact (hL e he).1 t
    rw [this, Nat.add_zero]
  have hmemE : ∀ e, e ∈ st'.events → e ∈ st.events ∨ e ∈ L := by
    intro e he
    rw [hevents] at he
    exact List.mem_append.mp he
  refine ⟨?_, ?_, ?_, ?_, ?_, ?_, ?_, ?_, ?_, ?_, ?_, ?_, ?_, ?_⟩
  · intro t ht; rw [hids]; exact h.status_keys t (by rw [hstatus] at ht; exact ht)
  · intro t ht; rw [hids]; exact h.counts_keys t (by rw [hcounts] at ht; exact ht)
  · intro t ht; rw [hids]; exact h.outputs_keys t (by rw [houtputs] at ht; exact ht)
  · intro t ht; rw [hso]
    exact h.outputs_terminal t (by rw [houtputs] at ht; exact ht)
  · rw [htasks]; exact h.keys_nodup
  · intro t ht
    rw [hids]
    rcases hmemE _ ht with h1 | h1
    · exact h.success_mem t h1
    · exact absurd rfl ((hL _ h1).2.2.2.1 t)
  · intro t; rw [hsc, hco]; exact h.succ_le_count t
  · intro t task hmem k hk
    rw [hco]
    exact h.count_le_max t task (by rw [htasks] at hmem; exact hmem) k hk
  · intro t ht
    rw [hids]
    rcases hmemE _ ht with h1 | h1
    · exact h.invoke_mem t h1
    · exact absurd rfl ((hL _ h1).1 t)
  · intro t; rw [hic]; exact h.invoke_once t
  · intro t ht
    rw [hso]
    rcases hmemE _ ht with h1 | h1
    · exact h.invoke_started t h1
    · exact absurd rfl ((hL _ h1).1 t)
  · intro site t o n hmem ho
    rcases hmemE _ hmem with h1 | h1
    · exact h.terminal_sticky site t o n h1 ho
    · have := (hL _ h1).2.2.2.2 site t o n rfl
      rw [ho] at this
      cases this
  · intro t ht
    rcases hmemE _ ht with h1 | h1
    · exact h.no_overwrite t h1
    · exact absurd rfl ((hL _ h1).2.1 t)
  · intro p c hpc
    rcases hmemE _ hpc with h1 | h1
    · exact h.no_enq_violation p c h1
    · exact absurd rfl ((hL _ h1).2.2.1 p c)

/-- Preservation of the invariant by a status write to `failed` on a
registered task, provided the task is not `done` or the site is the
task-runner failure handler. -/
theorem inv_setStatus_failed (st : Orch) (site t0 : String) (h : Inv st)
    (hmem : t0 ∈ st.taskIds)
    (hst : st.statusOf t0 ≠ .done ∨ site = "task_runner_fail") :
    Inv (st.setStatus site t0 .failed) := by
  have hstat : (st.setStatus site t0 .failed).task_status
      = aset st.task_status t0 .failed := rfl
  obtain ⟨ev, hev, hevspec⟩ :
      ∃ ev, (st.setStatus site t0 .failed).events = st.events ++ ev ∧
        ∀ e ∈ ev, ∃ oldS, e = Event.statusChange site t0 oldS .failed ∧
          oldS ≠ .failed ∧ st.statusOf t0 = oldS := by
    unfold Orch.setStatus
    cases hlk : alookup st.task_status t0 with
    | none => exact ⟨[], by simp, by simp⟩
    | some oldS =>
      by_cases he : oldS = Status.failed
      · refine ⟨[], ?_, by simp⟩
        simp [he]
      · refine ⟨[Event.statusChange site t0 oldS .failed], ?_, ?_⟩
        · simp [he]
        · intro e hesm
          simp only [List.mem_singleton] at hesm
          refine ⟨oldS, hesm, he, ?_⟩
          unfold Orch.statusOf
          rw [hlk]
          rfl
  have hsoself : (st.setStatus site t0 .failed).statusOf t0 = .failed :=
    setStatus_statusOf_self st site t0 .failed
  have hsone : ∀ t, t ≠ t0 →
      (st.setStatus site t0 .failed).statusOf t = st.statusOf t :=
    fun t ht => setStatus_statusOf_ne st site t0 .failed ht
  have hids : (st.setStatus site t0 .failed).taskIds = st.taskIds := rfl
  have hmemE : ∀ e, e ∈ (st.setStatus site t0 .failed).events →
      e ∈ st.events ∨ e ∈ ev := by
    intro e he
    rw [hev] at he
    exact List.mem_append.mp he
  have hcnt0 : ∀ (t : String),
      ev.countP (fun e => e == Event.invoke t) = 0 ∧
      ev.countP (fun e => e == Event.spawnSuccess t) = 0 := by
    intro t
    constructor <;>
      (rw [List.countP_eq_zero]
       intro e he
       obtain ⟨oldS, heq, -, -⟩ := hevspec e he
       simp [heq])
  refine ⟨?_, ?_, ?_, ?_, ?_, ?_, ?_, ?_, ?_, ?_, ?_, ?_, ?_, ?_⟩
  · intro t ht
    rw [hstat] at ht
    rw [hids]
    rcases alookup_aset_isSome _ _ _ _ ht with h1 | h1
    · exact h.status_keys t h1
    · rw [h1]; exact hmem
  · intro t ht; rw [hids]; exact h.counts_keys t ht
  · intro t ht; rw [hids]; exact h.outputs_keys t ht
  · intro t ht
    by_cases h1 : t = t0
    · rw [h1, hsoself]; rfl
    · rw [hsone t h1]; exact h.outputs_terminal t ht
  · exact h.keys_nodup
  · intro t ht
    rw [hids]
    rcases hmemE _ ht with h1 | h1
    · exact h.success_mem t h1
    · obtain ⟨oldS, heq, -, -⟩ := hevspec _ h1
      cases heq
  · intro t
    have h1 : succCount (st.setStatus site t0 .failed) t = succCount st t := by
      unfold succCount
      rw [hev, List.countP_append, (hcnt0 t).2, Nat.add_zero]
    rw [h1]
    exact h.succ_le_count t
  · intro t task hmem2 k hk
    exact h.count_le_max t task hmem2 k hk
  · intro t ht
    rw [hids]
    rcases hmemE _ ht with h1 | h1
    · exact h.invoke_mem t h1
    · obtain ⟨oldS, heq, -, -⟩ := hevspec _ h1
      cases heq
  · intro t
    have h1 : invokeCount (st.setStatus site t0 .failed) t = invokeCount st t := by
      unfold invokeCount
      rw [hev, List.countP_append, (hcnt0 t).1, Nat.add_zero]
    rw [h1]
    exact h.invoke_once t
  · intro t ht
    rcases hmemE _ ht with h1 | h1
    · by_cases h2 : t = t0
      · rw [h2, hsoself]; intro hx; cases hx
      · rw [hsone t h2]; exact h.invoke_started t h1
    · obtain ⟨oldS, heq, -, -⟩ := hevspec _ h1
      cases heq
  · intro site2 t o n hmem2 ho
    rcases hmemE _ hmem2 with h1 | h1
    · exact h.terminal_sticky site2 t o n h1 ho
    · obtain ⟨oldS, heq, hne, hsold⟩ := hevspec _ h1
      injection heq with e1 e2 e3 e4
      refine ⟨?_, e4, ?_⟩
      · rw [e3] at ho ⊢
        cases hox : oldS with
        | done => rfl
        | failed => exact absurd hox hne
        | pending => rw [hox] at ho; cases ho
        | running => rw [hox] at ho; cases ho
      · rcases hst with h2 | h2
        · exfalso
          apply h2
          rw [hsold]
          rw [e3] at ho
          cases hox : oldS with
          | done => rfl
          | failed => exact absurd hox hne
          | pending => rw [hox] at ho; cases ho
          | running => rw [hox] at ho; cases ho
        · rw [e1, h2]
  · intro t ht
    rcases hmemE _ ht with h1 | h1
    · exact h.no_overwrite t h1
    · obtain ⟨oldS, heq, -, -⟩ := hevspec _ h1
      cases heq
  · intro p c hpc
    rcases hmemE _ hpc with h1 | h1
    · exact h.no_enq_violation p c h1
    · obtain ⟨oldS, heq, -, -⟩ := hevspec _ h1
      cases heq

theorem inv_failFlip (acc : Orch) (p : String × Task) (h : Inv acc) :
    Inv (failFlip acc p) := by
  unfold failFlip
  split_ifs with hg
  · have hmem : p.1 ∈ acc.taskIds := by
      have hsome : (alookup acc.task_status p.1).isSome = true := by
        cases hlk : alookup acc.task_status p.1 with
        | none =>
          exfalso
          unfold Orch.statusOf at hg
          rw [hlk] at hg
          rcases hg with h1 | h1 <;> cases h1
        | some s => rfl
      exact h.status_keys _ hsome
    refine inv_setStatus_failed acc "fail_workflow" p.1 h hmem (Or.inl ?_)
    rcases hg with h1 | h1 <;> (rw [h1]; intro hx; cases hx)
  · exact h

theorem inv_foldl_failFlip (L : List (String × Task)) (acc : Orch)
    (h : Inv acc) : Inv (L.foldl failFlip acc) := by
  induction L generalizing acc with
  | nil => exact h
  | cons p rest ih => exact ih _ (inv_failFlip acc p h)

theorem inv_fail_workflow (st : Orch) (wf_id m : String) (h : Inv st) :
    Inv (st.fail_workflow wf_id m).1 := by
  have h1 : Inv { st with ready_queue := ([] : List (String × Value)) } :=
    h.of_fields_eq rfl rfl rfl rfl rfl
  have h2 : Inv (st.wf.tasks.foldl failFlip
      { st with ready_queue := ([] : List (String × Value)) }) :=
    inv_foldl_failFlip _ _ h1
  refine h2.extend_irrelevant [Event.abortRaised (abortMsg wf_id m)]
    rfl rfl rfl rfl rfl ?_
  intro e he
  simp only [List.mem_singleton] at he
  subst he
  refine ⟨fun t hx => ?_, fun t hx => ?_, fun p c hx => ?_, fun t hx => ?_,
    fun site t o n hx => ?_⟩ <;> cases hx

theorem inv_addNewEdges (wf_id cid nid : String) :
    ∀ (L : List (String × String)) (st : Orch), Inv st →
    Inv (Orch.addNewEdges st wf_id cid nid L).1 := by
  intro L
  induction L with
  | nil => intro st h; exact h
  | cons e rest ih =>
    intro st h
    unfold Orch.addNewEdges
    split
    · exact inv_fail_workflow _ _ _ h
    · split
      · split
        · exact inv_fail_workflow _ _ _ h
        · exact ih _ (h.of_fields_eq rfl rfl rfl rfl rfl)
      · exact h

theorem addNewEdges_tasks_eq (wf_id cid nid : String) :
    ∀ (L : List (String × String)) (st : Orch),
    (Orch.addNewEdges st wf_id cid nid L).1.wf.tasks = st.wf.tasks := by
  intro L
  induction L with
  | nil => intro st; rfl
  | cons e rest ih =>
    intro st
    unfold Orch.addNewEdges
    split
    · exact (fail_workflow_effects st wf_id _).2.2.1 ▸ rfl
    · split
      · split
        · exact congrArg Workflow.tasks (fail_workflow_effects st wf_id _).2.2.1
        · exact ih _
      · rfl

theorem succCount_zero_of_not_mem (st : Orch) (t : String)
    (h : Event.spawnSuccess t ∉ st.events) : succCount st t = 0 := by
  unfold succCount
  rw [List.countP_eq_zero]
  intro e he
  simp only [beq_iff_eq]
  intro hx
  rw [hx] at he
  exact h he

theorem invokeCount_zero_of_not_mem (st : Orch) (t : String)
    (h : Event.invoke t ∉ st.events) : invokeCount st t = 0 := by
  unfold invokeCount
  rw [List.countP_eq_zero]
  intro e he
  simp only [beq_iff_eq]
  intro hx
  rw [hx] at he
  exact h he

theorem inv_spawnInsert (st : Orch) (creator : String) (nt : Task)
    (skipv : Bool) (creator_obj : Task) (h : Inv st)
    (hcre : alookup st.wf.tasks creator = some creator_obj)
    (hnid : nt.task_id ∉ st.taskIds)
    (hq : ∀ k, creator_obj.constraints.max_spawn_count = some k →
      (st.countOf creator : Int) < k) :
    Inv (st.spawnInsert creator nt skipv) := by
  have hcr : creator ∈ st.taskIds :=
    (alookup_isSome_iff_mem st.wf.tasks creator).mp (by rw [hcre]; rfl)
  have hcrne : creator ≠ nt.task_id := fun he => hnid (he ▸ hcr)
  have hstatnone : alookup st.task_status nt.task_id = none := by
    cases hlk : alookup st.task_status nt.task_id with
    | none => rfl
    | some s => exact absurd (h.status_keys _ (by rw [hlk]; rfl)) hnid
  have hev : (st.spawnInsert creator nt skipv).events = st.events :=
    spawnInsert_events st creator nt skipv hstatnone
  have hids : (st.spawnInsert creator nt skipv).taskIds
      = st.taskIds ++ [nt.task_id] := spawnInsert_taskIds st creator nt skipv
  obtain ⟨-, -, houts, -, -, -, htasks⟩ := spawnInsert_fields st creator nt skipv
  have hstat := spawnInsert_task_status st creator nt skipv
  have hcounts : ∀ t, t ≠ creator → t ≠ nt.task_id →
      (st.spawnInsert creator nt skipv).countOf t = st.countOf t :=
    fun t h1 h2 => spawnInsert_countOf_other st creator nt skipv h1 h2
  have hcountc := spawnInsert_countOf_creator st creator nt skipv hcrne
  have hcountn := spawnInsert_countOf_new st creator nt skipv hcrne
  have hsucc : ∀ t, succCount (st.spawnInsert creator nt skipv) t
      = succCount st t := by
    intro t; unfold succCount; rw [hev]
  have hinvk : ∀ t, invokeCount (st.spawnInsert creator nt skipv) t
      = invokeCount st t := by
    intro t; unfold invokeCount; rw [hev]
  have hsonew := spawnInsert_statusOf_new st creator nt skipv
  have hsone : ∀ t, t ≠ nt.task_id →
      (st.spawnInsert creator nt skipv).statusOf t = st.statusOf t :=
    fun t ht => spawnInsert_statusOf_ne st creator nt skipv ht
  have hcountskeys : ∀ t,
      (alookup (st.spawnInsert creator nt skipv).spawn_counts t).isSome = true →
      (alookup st.spawn_counts t).isSome = true ∨ t = creator ∨ t = nt.task_id := by
    intro t ht
    have hsc2 : (st.spawnInsert creator nt skipv).spawn_counts
        = aset (aset st.spawn_counts nt.task_id 0) creator
            ((Orch.countOf { st with
                wf := { st.wf with tasks := st.wf.tasks ++ [(nt.task_id, nt)] },
                task_status := aset st.task_status nt.task_id Status.pending,
                spawn_counts := aset st.spawn_counts nt.task_id 0,
                events := st.events } creator) + 1) := by
      unfold Orch.spawnInsert Orch.setStatus
      simp only [hstatnone]
      split_ifs <;> rfl
    rw [hsc2] at ht
    rcases alookup_aset_isSome _ _ _ _ ht with h1 | h1
    · rcases alookup_aset_isSome _ _ _ _ h1 with h2 | h2
      · exact Or.inl h2
      · exact Or.inr (Or.inr h2)
    · exact Or.inr (Or.inl h1)
  refine ⟨?_, ?_, ?_, ?_, ?_, ?_, ?_, ?_, ?_, ?_, ?_, ?_, ?_, ?_⟩
  · intro t ht
    rw [hstat] at ht
    rw [hids]
    rcases alookup_aset_isSome _ _ _ _ ht with h1 | h1
    · exact List.mem_append_left _ (h.status_keys t h1)
    · rw [h1]; exact List.mem_append_right _ (List.mem_singleton.mpr rfl)
  · intro t ht
    rw [hids]
    rcases hcountskeys t ht with h1 | h1 | h1
    · exact List.mem_append_left _ (h.counts_keys t h1)
    · rw [h1]; exact List.mem_append_left _ hcr
    · rw [h1]; exact List.mem_append_right _ (List.mem_singleton.mpr rfl)
  · intro t ht
    rw [houts] at ht
    rw [hids]
    exact List.mem_append_left _ (h.outputs_keys t ht)
  · intro t ht
    rw [houts] at ht
    have htmem : t ∈ st.taskIds := h.outputs_keys t ht
    have htne : t ≠ nt.task_id := fun he => hnid (he ▸ htmem)
    rw [hsone t htne]
    exact h.outputs_terminal t ht
  · rw [htasks, List.map_append]
    simp only [List.map]
    rw [List.nodup_append]
    refine ⟨h.keys_nodup, List.nodup_singleton _, ?_⟩
    intro a ha hb
    simp only [List.mem_singleton] at hb
    rw [hb] at ha
    exact hnid ha
  · intro t ht
    rw [hev] at ht
    rw [hids]
    exact List.mem_append_left _ (h.success_mem t ht)
  · intro t
    rw [hsucc]
    by_cases h1 : t = nt.task_id
    · rw [h1, hcountn]
      have : succCount st nt.task_id = 0 :=
        succCount_zero_of_not_mem st _ (fun hm => hnid (h.success_mem _ hm))
      rw [this]
    · by_cases h2 : t = creator
      · rw [h2, hcountc]
        exact Nat.le_succ_of_le (h.succ_le_count creator)
      · rw [hcounts t h2 h1]
        exact h.succ_le_count t
  · intro t task hmem k hk
    rw [htasks] at hmem
    rcases List.mem_append.mp hmem with h1 | h1
    · have htmem : t ∈ st.taskIds := List.mem_map.mpr ⟨(t, task), h1, rfl⟩
      have htne : t ≠ nt.task_id := fun he => hnid (he ▸ htmem)
      by_cases h2 : t = creator
      · subst h2
        have : task = creator_obj := by
          have h3 := alookup_eq_some_of_mem_nodup h.keys_nodup h1
          rw [hcre] at h3
          injection h3 with h4
          exact h4.symm
        rw [this] at hk
        left
        rw [hcountc]
        have := hq k hk
        push_cast
        omega
      · rw [hcounts t h2 htne]
        exact h.count_le_max t task h1 k hk
    · simp only [List.mem_singleton] at h1
      injection h1 with e1 e2
      right
      rw [e1, hcountn]
  · intro t ht
    rw [hev] at ht
    rw [hids]
    exact List.mem_append_left _ (h.invoke_mem t ht)
  · intro t
    rw [hinvk]
    exact h.invoke_once t
  · intro t ht
    rw [hev] at ht
    have htne : t ≠ nt.task_id := fun he => hnid (he ▸ h.invoke_mem t ht)
    rw [hsone t htne]
    exact h.invoke_started t ht
  · intro site t o n hmem ho
    rw [hev] at hmem
    exact h.terminal_sticky site t o n hmem ho
  · intro t ht
    rw [hev] at ht
    exact h.no_overwrite t ht
  · intro p c hpc
    rw [hev] at hpc
    exact h.no_enq_violation p c hpc

/-- Queue insertion preserves the invariant when the inserted task has no
incoming dependency edge. -/
theorem inv_enqueue_no_incoming (st : Orch) (t : String) (v : Value)
    (h : Inv st)
    (hno : (st.wf.edges.any (fun e => e.2 == t)) = false) :
    Inv (st.enqueue t v) := by
  have hviol : (st.wf.edges.filterMap (fun pc =>
      if pc.2 == t && !(st.statusOf pc.1).terminal then
        some (Event.enqViolation pc.1 pc.2)
      else none)) = [] := by
    rw [List.filterMap_eq_nil_iff]
    intro pc hpc
    have hfalse : (pc.2 == t) = false := by
      cases hb : (pc.2 == t) with
      | false => rfl
      | true =>
        exfalso
        have hx : (st.wf.edges.any (fun e => e.2 == t)) = true := by
          rw [List.any_eq_true]
          exact ⟨pc, hpc, hb⟩
        rw [hno] at hx
        cases hx
    simp [hfalse]
  refine h.of_fields_eq rfl rfl rfl rfl ?_
  unfold Orch.enqueue
  simp only [hviol, List.append_nil]

/-- Appending a `spawnSuccess` event preserves the invariant when the
creator is registered and has spare quota relative to `succCount`. -/
theorem inv_append_success (st : Orch) (creator : String) (h : Inv st)
    (hcr : creator ∈ st.taskIds)
    (hlt : succCount st creator < st.countOf creator) :
    Inv { st with events := st.events ++ [Event.spawnSuccess creator] } := by
  have hmemE : ∀ e, e ∈ st.events ++ [Event.spawnSuccess creator] →
      e ∈ st.events ∨ e = Event.spawnSuccess creator := by
    intro e he
    rcases List.mem_append.mp he with h1 | h1
    · exact Or.inl h1
    · exact Or.inr (List.mem_singleton.mp h1)
  refine ⟨h.status_keys, h.counts_keys, h.outputs_keys, h.outputs_terminal,
    h.keys_nodup, ?_, ?_, h.count_le_max, ?_, ?_, ?_, ?_, ?_, ?_⟩
  · intro t ht
    rcases hmemE _ ht with h1 | h1
    · exact h.success_mem t h1
    · injection h1 with e1
      rw [e1]
      exact hcr
  · intro t
    show List.countP _ (st.events ++ [Event.spawnSuccess creator]) ≤ _
    rw [List.countP_append]
    by_cases h1 : t = creator
    · subst h1
      have : List.countP (fun e => e == Event.spawnSuccess t)
          [Event.spawnSuccess t] = 1 := by simp
      rw [this]
      exact hlt
    · have : List.countP (fun e => e == Event.spawnSuccess t)
          [Event.spawnSuccess creator] = 0 := by
        simp [Ne.symm h1]
      rw [this, Nat.add_zero]
      exact h.succ_le_count t
  · intro t ht
    rcases hmemE _ ht with h1 | h1
    · exact h.invoke_mem t h1
    · cases h1
  · intro t
    show List.countP _ (st.events ++ [Event.spawnSuccess creator]) ≤ 1
    rw [List.countP_append]
    have : List.countP (fun e => e == Event.invoke t)
        [Event.spawnSuccess creator] = 0 := by simp
    rw [this, Nat.add_zero]
    exact h.invoke_once t
  · intro t ht
    rcases hmemE _ ht with h1 | h1
    · exact h.invoke_started t h1
    · cases h1
  · intro site t o n hmem ho
    rcases hmemE _ hmem with h1 | h1
    · exact h.terminal_sticky site t o n h1 ho
    · cases h1
  · intro t ht
    rcases hmemE _ ht with h1 | h1
    · exact h.no_overwrite t h1
    · cases h1
  · intro p c hpc
    rcases hmemE _ hpc with h1 | h1
    · exact h.no_enq_violation p c h1
    · cases h1

theorem inv_spawn_task (st : Orch) (wf_id creator : String) (nt : Task)
    (ne : List (String × String)) (inp : Option Value) (skipv : Bool)
    (h : Inv st) : Inv (st.spawn_task wf_id creator nt ne inp skipv).1 := by
  unfold Orch.spawn_task
  split
  case h_1 => exact inv_fail_workflow _ _ _ h
  case h_2 creator_obj hcre =>
    split
    · exact inv_fail_workflow _ _ _ h
    · rename_i hquota
      split
      · exact inv_fail_workflow _ _ _ h
      · split
        · exact inv_fail_workflow _ _ _ h
        · rename_i hdup
          have hnid : nt.task_id ∉ st.taskIds := fun hm =>
            hdup ((alookup_isSome_iff_mem _ _).mpr hm)
          have hq : ∀ k, creator_obj.constraints.max_spawn_count = some k →
              (st.countOf creator : Int) < k := by
            intro k hk
            rw [hk] at hquota
            by_contra hx
            push_neg at hx
            exact hquota (by simp; omega)
          have h6 : Inv (st.spawnInsert creator nt skipv) :=
            inv_spawnInsert st creator nt skipv creator_obj h hcre hnid hq
          rcases hAN : Orch.addNewEdges (st.spawnInsert creator nt skipv)
              wf_id creator nt.task_id ne with ⟨st7, e7⟩
          have h7 : Inv st7 := by
            have := inv_addNewEdges wf_id creator nt.task_id ne _ h6
            rw [hAN] at this
            exact this
          cases e7 with
          | some e7v =>
            simp only [hAN]
            exact h7
          | none =>
            simp only [hAN]
            rcases Bool.eq_false_or_eq_true
                (is_directed_acyclic_graph (st7.wf.tasks.map Prod.fst)
                  st7.wf.edges) with hacy | hacy
            · -- success: maybe enqueue, then append the success event
              rw [hacy]
              simp only [Bool.not_true]
              rw [if_neg (by simp)]
              obtain ⟨g1, g2, g3, g4, g5, g6, g7, g8, g9, g10⟩ :=
                addNewEdges_ok wf_id creator nt.task_id ne _ _ hAN
              have hcrmem : creator ∈ st.taskIds :=
                (alookup_isSome_iff_mem st.wf.tasks creator).mp
                  (by rw [hcre]; rfl)
              have hcrmem7 : creator ∈ st7.taskIds := by
                unfold Orch.taskIds
                rw [g9, (spawnInsert_fields st creator nt skipv).2.2.2.2.2.2]
                rw [List.map_append]
                exact List.mem_append_left _ hcrmem
              have hcrne : creator ≠ nt.task_id := fun he => hnid (he ▸ hcrmem)
              have hstatnone : alookup st.task_status nt.task_id = none := by
                cases hlk : alookup st.task_status nt.task_id with
                | none => rfl
                | some s =>
                  exact absurd (h.status_keys _ (by rw [hlk]; rfl)) hnid
              have hlt7 : succCount st7 creator < st7.countOf creator := by
                have e1 : succCount st7 creator = succCount st creator := by
                  unfold succCount
                  rw [g8, spawnInsert_events st creator nt skipv hstatnone]
                have e2 : st7.countOf creator = st.countOf creator + 1 := by
                  unfold Orch.countOf
                  rw [g4]
                  exact spawnInsert_countOf_creator st creator nt skipv hcrne
                rw [e1, e2]
                exact Nat.lt_succ_of_le (h.succ_le_count creator)
              cases inp with
              | none =>
                exact inv_append_success st7 creator h7 hcrmem7 hlt7
              | some d =>
                dsimp only
                rcases Bool.eq_false_or_eq_true
                    (st7.wf.edges.any (fun e => e.2 == nt.task_id))
                  with hdeps | hdeps
                · rw [hdeps]
                  rw [if_pos rfl]
                  exact inv_append_success st7 creator h7 hcrmem7 hlt7
                · rw [hdeps]
                  rw [if_neg (by simp)]
                  have h8 : Inv (st7.enqueue nt.task_id d) :=
                    inv_enqueue_no_incoming st7 nt.task_id d h7 hdeps
                  have hq8 : (st7.enqueue nt.task_id d).events = st7.events := by
                    unfold Orch.enqueue
                    have hviol : (st7.wf.edges.filterMap (fun pc =>
                        if pc.2 == nt.task_id && !(st7.statusOf pc.1).terminal then
                          some (Event.enqViolation pc.1 pc.2)
                        else none)) = [] := by
                      rw [List.filterMap_eq_nil_iff]
                      intro pc hpc
                      have hfalse : (pc.2 == nt.task_id) = false := by
                        cases hb : (pc.2 == nt.task_id) with
                        | false => rfl
                        | true =>
                          exfalso
                          have hx : (st7.wf.edges.any
                              (fun e => e.2 == nt.task_id)) = true := by
                            rw [List.any_eq_true]
                            exact ⟨pc, hpc, hb⟩
                          rw [hdeps] at hx
                          cases hx
                      simp [hfalse]
                    simp only [hviol, List.append_nil]
                  apply inv_append_success (st7.enqueue nt.task_id d) creator h8
                  · unfold Orch.taskIds
                    exact hcrmem7
                  · have e1 : succCount (st7.enqueue nt.task_id d) creator
                        = succCount st7 creator := by
                      unfold succCount
                      rw [hq8]
                    have e2 : (st7.enqueue nt.task_id d).countOf creator
                        = st7.countOf creator := rfl
                    rw [e1, e2]
                    exact hlt7
            · -- cycle: abort from `st7`
              rw [hacy]
              simp only [Bool.not_false, if_pos]
              exact inv_fail_workflow _ _ _ h7

/-! ### Task-id monotonicity across operations -/

theorem complete_task_wf (st : Orch) (t : String) (v : Value) :
    (st.complete_task t v).1.wf = st.wf := by
  unfold Orch.complete_task
  split
  · rfl
  · split_ifs <;> rfl

theorem spawn_task_taskIds_mono (st : Orch) (wf_id creator : String)
    (nt : Task) (ne : List (String × String)) (inp : Option Value)
    (skipv : Bool) :
    ∀ t ∈ st.taskIds,
      t ∈ (st.spawn_task wf_id creator nt ne inp skipv).1.taskIds := by
  intro t ht
  unfold Orch.spawn_task
  split
  case h_1 =>
    unfold Orch.taskIds
    rw [(fail_workflow_effects st _ _).2.2.1]
    exact ht
  case h_2 creator_obj hcre =>
    split
    · unfold Orch.taskIds
      rw [(fail_workflow_effects st _ _).2.2.1]
      exact ht
    · split
      · unfold Orch.taskIds
        rw [(fail_workflow_effects st _ _).2.2.1]
        exact ht
      · split
        · unfold Orch.taskIds
          rw [(fail_workflow_effects st _ _).2.2.1]
          exact ht
        · have h6 : t ∈ (st.spawnInsert creator nt skipv).taskIds := by
            rw [spawnInsert_taskIds]
            exact List.mem_append_left _ ht
          rcases hAN : Orch.addNewEdges (st.spawnInsert creator nt skipv)
              wf_id creator nt.task_id ne with ⟨st7, e7⟩
          have h7 : t ∈ st7.taskIds := by
            unfold Orch.taskIds
            have := addNewEdges_tasks_eq wf_id creator nt.task_id ne
              (st.spawnInsert creator nt skipv)
            rw [hAN] at this
            simp only at this
            rw [this]
            exact h6
          cases e7 with
          | some e7v =>
            simp only [hAN]
            exact h7
          | none =>
            simp only [hAN]
            rcases Bool.eq_false_or_eq_true
                (is_directed_acyclic_graph (st7.wf.tasks.map Prod.fst)
                  st7.wf.edges) with hacy | hacy
            · rw [hacy]
              simp only [Bool.not_true]
              rw [if_neg (by simp)]
              cases inp with
              | none => exact h7
              | some d =>
                dsimp only
                rcases Bool.eq_false_or_eq_true
                    (st7.wf.edges.any (fun e => e.2 == nt.task_id))
                  with hdeps | hdeps
                · rw [hdeps, if_pos rfl]
                  exact h7
                · rw [hdeps, if_neg (by simp)]
                  exact h7
            · rw [hacy]
              simp only [Bool.not_false, if_pos]
              unfold Orch.taskIds
              rw [(fail_workflow_effects st7 _ _).2.2.1]
              exact h7

theorem run_body_cmds_taskIds_mono (wf_id : String) :
    ∀ (cmds : List BodyCmd) (st : Orch) (t : String),
    t ∈ st.taskIds → t ∈ (run_body_cmds st wf_id cmds).1.taskIds := by
  intro cmds
  induction cmds with
  | nil => intro st t ht; exact ht
  | cons cmd rest ih =>
    intro st t ht
    unfold run_body_cmds
    cases cmd with
    | spawnCmd creator nt ne2 inp skipv sw =>
      have hstep := spawn_task_taskIds_mono st wf_id creator nt ne2 inp skipv t ht
      rcases hr : st.spawn_task wf_id creator nt ne2 inp skipv with ⟨stA, eA⟩
      rw [hr] at hstep
      simp only [hr]
      cases eA with
      | none => exact ih stA t hstep
      | some e =>
        cases sw with
        | true => exact ih stA t hstep
        | false => exact hstep
    | completeCmd target res sw =>
      have hstep : t ∈ (st.complete_task target res).1.taskIds := by
        unfold Orch.taskIds
        rw [complete_task_wf]
        exact ht
      rcases hr : st.complete_task target res with ⟨stA, eA⟩
      rw [hr] at hstep
      simp only [hr]
      cases eA with
      | none => exact ih stA t hstep
      | some e =>
        cases sw with
        | true => exact ih stA t hstep
        | false => exact hstep

theorem run_body_taskIds_mono (st : Orch) (wf_id : String) (b : Body)
    (t : String) (ht : t ∈ st.taskIds) :
    t ∈ (run_body st wf_id b).1.taskIds := by
  unfold run_body
  have h1 := run_body_cmds_taskIds_mono wf_id b.cmds st t ht
  rcases hr : run_body_cmds st wf_id b.cmds with ⟨stA, eA⟩
  rw [hr] at h1
  cases eA with
  | none => cases hb : b.outcome <;> exact h1
  | some e => exact h1

/-! ### Invariant preservation through bodies and the dispatcher -/

theorem inv_run_body_cmds (wf_id : String) :
    ∀ (cmds : List BodyCmd) (st : Orch), Inv st →
    Inv (run_body_cmds st wf_id cmds).1 := by
  intro cmds
  induction cmds with
  | nil => intro st h; exact h
  | cons cmd rest ih =>
    intro st h
    unfold run_body_cmds
    cases cmd with
    | spawnCmd creator nt ne2 inp skipv sw =>
      have hstep := inv_spawn_task st wf_id creator nt ne2 inp skipv h
      rcases hr : st.spawn_task wf_id creator nt ne2 inp skipv with ⟨stA, eA⟩
      rw [hr] at hstep
      simp only [hr]
      cases eA with
      | none => exact ih stA hstep
      | some e =>
        cases sw with
        | true => exact ih stA hstep
        | false => exact hstep
    | completeCmd target res sw =>
      have hstep := inv_complete_task st target res h
      rcases hr : st.complete_task target res with ⟨stA, eA⟩
      rw [hr] at hstep
      simp only [hr]
      cases eA with
      | none => exact ih stA hstep
      | some e =>
        cases sw with
        | true => exact ih stA hstep
        | false => exact hstep

theorem inv_run_body (st : Orch) (wf_id : String) (b : Body) (h : Inv st) :
    Inv (run_body st wf_id b).1 := by
  unfold run_body
  have h1 := inv_run_body_cmds wf_id b.cmds st h
  rcases hr : run_body_cmds st wf_id b.cmds with ⟨stA, eA⟩
  rw [hr] at h1
  cases eA with
  | none => cases hb : b.outcome <;> exact h1
  | some e => exact h1

theorem inv_task_runner (st : Orch) (wf_id tid : String) (h : Inv st)
    (hmem : tid ∈ st.taskIds) : Inv (task_runner st wf_id tid) := by
  unfold task_runner
  split
  · exact inv_setStatus_failed st "task_runner_fail" tid h hmem (Or.inr rfl)
  · rename_i task_obj hlk
    have h1 := inv_run_body st wf_id task_obj.body h
    have hmem1 := run_body_taskIds_mono st wf_id task_obj.body tid hmem
    rcases hr : run_body st wf_id task_obj.body with ⟨stA, eA, val⟩
    rw [hr] at h1 hmem1
    cases eA with
    | none =>
      have h2 := inv_complete_task stA tid val h1
      have hmem2 : tid ∈ (stA.complete_task tid val).1.taskIds := by
        unfold Orch.taskIds
        rw [complete_task_wf]
        exact hmem1
      rcases hc : stA.complete_task tid val with ⟨stB, eB⟩
      rw [hc] at h2 hmem2
      simp only [hc]
      cases eB with
      | none => exact h2
      | some e =>
        exact inv_setStatus_failed stB "task_runner_fail" tid h2 hmem2 (Or.inr rfl)
    | some e =>
      exact inv_setStatus_failed stA "task_runner_fail" tid h1 hmem1 (Or.inr rfl)

/-- Preservation by the `running` status write of a dispatch. -/
theorem inv_setStatus_running (st : Orch) (site t0 : String) (h : Inv st)
    (hp : st.statusOf t0 = .pending) :
    Inv (st.setStatus site t0 .running) := by
  have hlk : alookup st.task_status t0 = some .pending := by
    cases hx : alookup st.task_status t0 with
    | none =>
      exfalso
      unfold Orch.statusOf at hp
      rw [hx] at hp
      cases hp
    | some s =>
      unfold Orch.statusOf at hp
      rw [hx] at hp
      simp only [Option.getD] at hp
      rw [hp]
  have hmem : t0 ∈ st.taskIds := h.status_keys t0 (by rw [hlk]; rfl)
  have hev : (st.setStatus site t0 .running).events
      = st.events ++ [Event.statusChange site t0 .pending .running] := by
    unfold Orch.setStatus
    rw [hlk]
    simp
  have hstat : (st.setStatus site t0 .running).task_status
      = aset st.task_status t0 .running := rfl
  have hsoself := setStatus_statusOf_self st site t0 .running
  have hsone : ∀ t, t ≠ t0 →
      (st.setStatus site t0 .running).statusOf t = st.statusOf t :=
    fun t ht => setStatus_statusOf_ne st site t0 .running ht
  have houtnone : alookup st.task_outputs t0 = none := by
    cases hx : alookup st.task_outputs t0 with
    | none => rfl
    | some w =>
      exfalso
      have := h.outputs_terminal t0 (by rw [hx]; rfl)
      rw [hp] at this
      cases this
  have hmemE : ∀ e, e ∈ (st.setStatus site t0 .running).events →
      e ∈ st.events ∨ e = Event.statusChange site t0 .pending .running := by
    intro e he
    rw [hev] at he
    rcases List.mem_append.mp he with h1 | h1
    · exact Or.inl h1
    · exact Or.inr (List.mem_singleton.mp h1)
  refine ⟨?_, ?_, ?_, ?_, h.keys_nodup, ?_, ?_, h.count_le_max, ?_, ?_, ?_, ?_,
    ?_, ?_⟩
  · intro t ht
    rw [hstat] at ht
    rcases alookup_aset_isSome _ _ _ _ ht with h1 | h1
    · exact h.status_keys t h1
    · rw [h1]; exact hmem
  · exact h.counts_keys
  · exact h.outputs_keys
  · intro t ht
    by_cases h1 : t = t0
    · exfalso
      rw [h1] at ht
      have ht2 : (alookup st.task_outputs t0).isSome = true := ht
      rw [houtnone] at ht2
      cases ht2
    · rw [hsone t h1]
      exact h.outputs_terminal t ht
  · intro t ht
    rcases hmemE _ ht with h1 | h1
    · exact h.success_mem t h1
    · cases h1
  · intro t
    have h1 : succCount (st.setStatus site t0 .running) t = succCount st t := by
      unfold succCount
      rw [hev, List.countP_append]
      simp
    rw [h1]
    exact h.succ_le_count t
  · intro t ht
    rcases hmemE _ ht with h1 | h1
    · exact h.invoke_mem t h1
    · cases h1
  · intro t
    have h1 : invokeCount (st.setStatus site t0 .running) t = invokeCount st t := by
      unfold invokeCount
      rw [hev, List.countP_append]
      simp
    rw [h1]
    exact h.invoke_once t
  · intro t ht
    rcases hmemE _ ht with h1 | h1
    · by_cases h2 : t = t0
      · rw [h2, hsoself]; intro hx; cases hx
      · rw [hsone t h2]; exact h.invoke_started t h1
    · cases h1
  · intro site2 t o n hmem2 ho
    rcases hmemE _ hmem2 with h1 | h1
    · exact h.terminal_sticky site2 t o n h1 ho
    · exfalso
      injection h1 with e1 e2 e3 e4
      rw [e3] at ho
      cases ho
  · intro t ht
    rcases hmemE _ ht with h1 | h1
    · exact h.no_overwrite t h1
    · cases h1
  · intro p c hpc
    rcases hmemE _ hpc with h1 | h1
    · exact h.no_enq_violation p c h1
    · cases h1

/-- Preservation by logging a body invocation together with any
dependency-violation ghost events. -/
theorem inv_invoke_extend (stb : Orch) (tid : String) (viol : List Event)
    (h : Inv stb) (hmem : tid ∈ stb.taskIds)
    (hnotpend : stb.statusOf tid ≠ .pending)
    (hnotinv : Event.invoke tid ∉ stb.events)
    (hviol : ∀ e ∈ viol, ∃ p c, e = Event.depViolation p c) :
    Inv { stb with events := stb.events ++ [Event.invoke tid] ++ viol } := by
  have hvcnt : ∀ (p : Event → Bool), (∀ e, (∃ p2 c2, e = Event.depViolation p2 c2) →
      p e = false) → viol.countP p = 0 := by
    intro p hp
    rw [List.countP_eq_zero]
    intro e he
    obtain ⟨p2, c2, he2⟩ := hviol e he
    rw [hp e ⟨p2, c2, he2⟩]
    intro hx
    cases hx
  have hmemE : ∀ e, e ∈ stb.events ++ [Event.invoke tid] ++ viol →
      e ∈ stb.events ∨ e = Event.invoke tid ∨ ∃ p c, e = Event.depViolation p c := by
    intro e he
    rcases List.mem_append.mp he with h1 | h1
    · rcases List.mem_append.mp h1 with h2 | h2
      · exact Or.inl h2
      · exact Or.inr (Or.inl (List.mem_singleton.mp h2))
    · exact Or.inr (Or.inr (hviol e h1))
  refine ⟨h.status_keys, h.counts_keys, h.outputs_keys, h.outputs_terminal,
    h.keys_nodup, ?_, ?_, h.count_le_max, ?_, ?_, ?_, ?_, ?_, ?_⟩
  · intro t ht
    rcases hmemE _ ht with h1 | h1 | h1
    · exact h.success_mem t h1
    · cases h1
    · obtain ⟨p2, c2, he2⟩ := h1
      cases he2
  · intro t
    show List.countP _ (stb.events ++ [Event.invoke tid] ++ viol) ≤ _
    rw [List.countP_append, List.countP_append]
    have hv0 : viol.countP (fun e => e == Event.spawnSuccess t) = 0 := by
      apply hvcnt
      rintro e ⟨p2, c2, rfl⟩
      simp
    simp only [hv0, Nat.add_zero]
    have h1 : List.countP (fun e => e == Event.spawnSuccess t)
        [Event.invoke tid] = 0 := by simp
    rw [h1, Nat.add_zero]
    exact h.succ_le_count t
  · intro t ht
    rcases hmemE _ ht with h1 | h1 | h1
    · exact h.invoke_mem t h1
    · injection h1 with e1
      rw [e1]
      exact hmem
    · obtain ⟨p2, c2, he2⟩ := h1
      cases he2
  · intro t
    show List.countP _ (stb.events ++ [Event.invoke tid] ++ viol) ≤ 1
    rw [List.countP_append, List.countP_append]
    have hv0 : viol.countP (fun e => e == Event.invoke t) = 0 := by
      apply hvcnt
      rintro e ⟨p2, c2, rfl⟩
      simp
    rw [hv0, Nat.add_zero]
    by_cases h1 : t = tid
    · subst h1
      have h2 : invokeCount stb t = 0 := invokeCount_zero_of_not_mem stb t hnotinv
      unfold invokeCount at h2
      rw [h2]
      simp
    · have h2 : List.countP (fun e => e == Event.invoke t)
          [Event.invoke tid] = 0 := by
        simp [Ne.symm h1]
      rw [h2, Nat.add_zero]
      exact h.invoke_once t
  · intro t ht
    rcases hmemE _ ht with h1 | h1 | h1
    · exact h.invoke_started t h1
    · injection h1 with e1
      rw [e1]
      exact hnotpend
    · obtain ⟨p2, c2, he2⟩ := h1
      cases he2
  · intro site2 t o n hmem2 ho
    rcases hmemE _ hmem2 with h1 | h1 | h1
    · exact h.terminal_sticky site2 t o n h1 ho
    · cases h1
    · obtain ⟨p2, c2, he2⟩ := h1
      cases he2
  · intro t ht
    rcases hmemE _ ht with h1 | h1 | h1
    · exact h.no_overwrite t h1
    · cases h1
    · obtain ⟨p2, c2, he2⟩ := h1
      cases he2
  · intro p c hpc
    rcases hmemE _ hpc with h1 | h1 | h1
    · exact h.no_enq_violation p c h1
    · cases h1
    · obtain ⟨p2, c2, he2⟩ := h1
      cases he2

theorem inv_spawn_parallel (st : Orch) (wf_id tid : String) (inputs : Value)
    (h : Inv st) : Inv (st.spawn_parallel wf_id tid inputs) := by
  unfold Orch.spawn_parallel
  split_ifs with hp
  · have hmem : tid ∈ st.taskIds := by
      apply h.status_keys tid
      cases hx : alookup st.task_status tid with
      | none =>
        exfalso
        unfold Orch.statusOf at hp
        rw [hx] at hp
        cases hp
      | some s => rfl
    have h1 : Inv (st.setStatus "spawn_parallel" tid .running) :=
      inv_setStatus_running st "spawn_parallel" tid h hp
    have h2 : Inv { st.setStatus "spawn_parallel" tid .running with
        task_inputs := aset (st.setStatus "spawn_parallel" tid .running).task_inputs
          tid inputs } :=
      h1.of_fields_eq rfl rfl rfl rfl rfl
    have hlk2 : alookup st.task_status tid = some .pending := by
      cases hy : alookup st.task_status tid with
      | none =>
        exfalso
        unfold Orch.statusOf at hp
        rw [hy] at hp
        cases hp
      | some s =>
        unfold Orch.statusOf at hp
        rw [hy] at hp
        simp only [Option.getD] at hp
        rw [hp]
    have hnotinv : Event.invoke tid ∉
        (st.setStatus "spawn_parallel" tid .running).events := by
      intro hx
      have hev2 : (st.setStatus "spawn_parallel" tid .running).events
          = st.events ++
            [Event.statusChange "spawn_parallel" tid .pending .running] := by
        unfold Orch.setStatus
        rw [hlk2]
        simp
      rw [hev2] at hx
      rcases List.mem_append.mp hx with h3 | h3
      · exact absurd hp (h.invoke_started tid h3)
      · simp at h3
    exact inv_task_runner _ wf_id tid
      (inv_invoke_extend _ tid _ h2 hmem
        (by
          intro hx
          have hx2 : (st.setStatus "spawn_parallel" tid Status.running).statusOf
              tid = Status.pending := hx
          rw [setStatus_statusOf_self] at hx2
          cases hx2)
        hnotinv
        (by
          intro e he
          rcases List.mem_filterMap.mp he with ⟨pc, hpc, hpc2⟩
          split_ifs at hpc2
          injection hpc2 with hpc3
          exact ⟨pc.1, pc.2, hpc3.symm⟩))
      hmem
  · exact h

theorem terminal_of_not_pending_running (s : Status)
    (h : ¬(s = .pending ∨ s = .running)) : s.terminal = true := by
  cases s <;> simp_all [Status.terminal]

/-- Queue insertion preserves the invariant when every current
predecessor of the inserted task is terminal. -/
theorem inv_enqueue_preds_terminal (stq : Orch) (t : String) (v : Value)
    (h : Inv stq)
    (hterm : ∀ p, (p, t) ∈ stq.wf.edges → (stq.statusOf p).terminal = true) :
    Inv (stq.enqueue t v) := by
  have hviol : (stq.wf.edges.filterMap (fun pc =>
      if pc.2 == t && !(stq.statusOf pc.1).terminal then
        some (Event.enqViolation pc.1 pc.2)
      else none)) = [] := by
    rw [List.filterMap_eq_nil_iff]
    intro pc hpc
    by_cases hb : (pc.2 == t) = true
    · have hpt : (pc.1, t) ∈ stq.wf.edges := by
        have : pc = (pc.1, t) := by
          have := beq_iff_eq.mp hb
          rw [← this]
        rw [← this]
        exact hpc
      have := hterm pc.1 hpt
      simp [hb, this]
    · have hb2 : (pc.2 == t) = false := by
        cases hx : (pc.2 == t)
        · rfl
        · exact absurd hx hb
      simp [hb2]
  refine h.of_fields_eq rfl rfl rfl rfl ?_
  unfold Orch.enqueue
  simp only [hviol, List.append_nil]

theorem inv_drainQueue (wf_id : String) :
    ∀ (fuel : Nat) (st : Orch), Inv st → Inv (st.drainQueue wf_id fuel) := by
  intro fuel
  induction fuel with
  | zero => intro st h; exact h
  | succ n ih =>
    intro st h
    unfold Orch.drainQueue
    split
    · exact h
    · exact ih _ (inv_spawn_parallel _ wf_id _ _
        (h.of_fields_eq rfl rfl rfl rfl rfl))

theorem inv_discover_fold (step : Nat) :
    ∀ (newly : List (String × List Value)) (acc : Orch), Inv acc →
    (∀ tp ∈ newly, ∀ p, (p, tp.1) ∈ acc.wf.edges →
      (acc.statusOf p).terminal = true) →
    Inv (newly.foldl (fun acc tp =>
      let acc1 := acc.enqueue tp.1 (Value.vlist tp.2)
      { acc1 with execution_history := aset acc1.execution_history tp.1 step })
      acc) := by
  intro newly
  induction newly with
  | nil => intro acc h _; exact h
  | cons tp rest ih =>
    intro acc h hterm
    rw [List.foldl_cons]
    apply ih
    · have h1 := inv_enqueue_preds_terminal acc tp.1 (Value.vlist tp.2) h
        (hterm tp (List.mem_cons_self _ _))
      exact h1.of_fields_eq rfl rfl rfl rfl rfl
    · intro tp2 hm p hpe
      exact hterm tp2 (List.mem_cons_of_mem _ hm) p hpe

theorem discover_preds_terminal (st : Orch) :
    ∀ tp ∈ st.discover, ∀ p, (p, tp.1) ∈ st.wf.edges →
      (st.statusOf p).terminal = true := by
  intro tp htp p hpe
  unfold Orch.discover at htp
  rcases List.mem_filterMap.mp htp with ⟨q, hq, hq2⟩
  split_ifs at hq2 with h1
  dsimp only at hq2
  split_ifs at hq2 with h2
  injection hq2 with hq3
  have htp1 : tp.1 = q.1 := by rw [← hq3]
  unfold Orch.allPredsDone at h2
  rw [List.all_eq_true] at h2
  have hpred : p ∈ predsOf st.wf.edges q.1 := by
    unfold predsOf
    rw [List.mem_map]
    refine ⟨(p, q.1), ?_, rfl⟩
    rw [List.mem_filter]
    exact ⟨by rw [← htp1]; exact hpe, by simp⟩
  have h4 := h2 p hpred
  apply terminal_of_not_pending_running
  simpa using h4

theorem inv_run_helper (st : Orch) (wf_id : String) (fuel : Nat)
    (h : Inv st) : Inv (st.run_helper wf_id fuel).1 := by
  unfold Orch.run_helper
  split_ifs with he
  · exact h
  · dsimp only
    apply inv_drainQueue
    exact inv_discover_fold st.currentStep st.discover st h
      (discover_preds_terminal st)

/-- A raising `run_helper` call: the only exception is the `ValueError` of
Python's `max` on the empty per-task generator, raised before any state is
mutated. -/
theorem run_helper_raise (st : Orch) (wf_id : String) (fuel : Nat)
    (st' : Orch) (e : PyExc)
    (h : st.run_helper wf_id fuel = (st', some e)) :
    e = .exc "ValueError: max() arg is an empty sequence" ∧ st' = st := by
  unfold Orch.run_helper at h
  split_ifs at h with he
  · injection h with h1 h2
    injection h2 with h2
    exact ⟨h2.symm, h1.symm⟩
  · dsimp only at h
    injection h with h1 h2
    cases h2

theorem inv_runLoop (wf_id : String) :
    ∀ (fuel : Nat) (st : Orch), Inv st → Inv (st.runLoop wf_id fuel).1 := by
  intro fuel
  induction fuel with
  | zero => intro st h; exact h
  | succ n ih =>
    intro st h
    unfold Orch.runLoop
    rcases hH : st.run_helper wf_id (Nat.succ n) with ⟨st1, eo⟩
    have h1 : Inv st1 := by
      have hh := inv_run_helper st wf_id (Nat.succ n) h
      rw [hH] at hh
      exact hh
    cases eo with
    | some e =>
      simp only [hH]
      exact h1
    | none =>
      simp only [hH]
      split_ifs with ht
      · exact h1
      · exact ih _ h1

theorem inv_roots_fold (input : List (String × Value)) :
    ∀ (roots : List String) (acc : Orch), Inv acc →
    (∀ r ∈ roots, (acc.wf.edges.any (fun e => e.2 == r)) = false) →
    Inv (roots.foldl (fun acc r =>
      acc.enqueue r ((alookup input r).getD (Value.vlist []))) acc) := by
  intro roots
  induction roots with
  | nil => intro acc h _; exact h
  | cons r rest ih =>
    intro acc h hroots
    rw [List.foldl_cons]
    apply ih
    · exact inv_enqueue_no_incoming acc r _ h (hroots r (List.mem_cons_self _ _))
    · intro r2 hm
      exact hroots r2 (List.mem_cons_of_mem _ hm)

theorem inv_run_workflow (st : Orch) (wf_id : String)
    (input : List (String × Value)) (fuel : Nat) (h : Inv st) :
    Inv (st.run_workflow wf_id input fuel).1 := by
  unfold Orch.run_workflow
  split_ifs with h1 h2
  · exact h
  · exact h
  · have hflag : Inv { st with running_loop := true } :=
      h.of_fields_eq rfl rfl rfl rfl rfl
    have hroots : ∀ r ∈ ({ st with running_loop := true } : Orch).wf.tasks.filterMap
        (fun p => if ({ st with running_loop := true } : Orch).wf.edges.any
            (fun e => e.2 == p.1) then none else some p.1),
        (({ st with running_loop := true } : Orch).wf.edges.any
          (fun e => e.2 == r)) = false := by
      intro r hr
      rcases List.mem_filterMap.mp hr with ⟨q, hq, hq2⟩
      split_ifs at hq2 with h3
      injection hq2 with hq3
      rw [← hq3]
      cases hx : (({ st with running_loop := true } : Orch).wf.edges.any
          (fun e => e.2 == q.1)) with
      | false => rfl
      | true => exact absurd hx h3
    have h2' := inv_roots_fold input _ _ hflag hroots
    have h3 := inv_runLoop wf_id fuel _ h2'
    dsimp only
    split
    · rename_i st3 heq
      rw [heq] at h3
      exact h3.of_fields_eq rfl rfl rfl rfl rfl
    · rename_i st3 r heq
      rw [heq] at h3
      exact h3

theorem inv_applyOp (st : Orch) (op : OrchOp) (h : Inv st) :
    Inv (applyOp st op) := by
  cases op with
  | opRun w i f => exact inv_run_workflow st w i f h
  | opHelper w f => exact inv_run_helper st w f h
  | opSpawn w c nt ne2 inp sk => exact inv_spawn_task st w c nt ne2 inp sk h
  | opComplete t v => exact inv_complete_task st t v h

theorem inv_execOps :
    ∀ (ops : List OrchOp) (st : Orch), Inv st → Inv (execOps st ops) := by
  intro ops
  induction ops with
  | nil => intro st h; exact h
  | cons op rest ih =>
    intro st h
    unfold execOps
    rw [List.foldl_cons]
    exact ih _ (inv_applyOp st op h)

/-! ## Claim C10: each task body is invoked at most once -/

/-- C10: over any sequence of public operations on a freshly registered
workflow with unique task ids, each task's body is invoked at most once:
the dispatcher runs a body only when the task's status is `pending` and
immediately sets it `running`, so a task id sitting in the ready queue more
than once (as every root does, being enqueued by `run_workflow`
initialization and again by the first discovery pass) is silently skipped
on every dequeue after the first. -/
theorem c10_body_invoked_at_most_once (wf : Workflow)
    (hn : (wf.tasks.map Prod.fst).Nodup) (ops : List OrchOp) (t : String) :
    invokeCount (execOps (register_workflow wf) ops) t ≤ 1 :=
  (inv_execOps ops _ (inv_register wf hn)).invoke_once t

theorem c10_body_invoked_at_most_once_witness :
    invokeCount (execOps (register_workflow c10Wf) [OrchOp.opRun "W" [] 4]) "A" ≤ 1 :=
  c10_body_invoked_at_most_once c10Wf (by decide) [OrchOp.opRun "W" [] 4] "A"

/-! ## Claim C4: dependency order at dispatch

The enqueue-time check is an invariant (`no_enq_violation`), but an edge
added by a later `spawn_task` is never re-checked against tasks already
sitting in the queue: the concrete run below dispatches `c` while its
recorded predecessor `d` is `pending`. -/

/-- C4 counterexample: in the concrete run of `c4Wf`, task `c` is
dispatched (its body invoked) while the edge `(d, c)` is in the workflow's
edges list and `d` is not yet terminal, and the run completes normally. -/
theorem c4_counterexample_dispatch_before_predecessor_terminal :
    Event.depViolation "d" "c" ∈ c4Pair.1.events ∧
    ("d", "c") ∈ c4Pair.1.wf.edges ∧
    c4Pair.2 = .completed := by
  refine ⟨?_, ?_, ?_⟩ <;> decide

/-- C4 (amended): at the moment a task is inserted into the ready queue,
every dependency edge `(p, c)` then present in the workflow's edges list
has `p` terminal; edges added to an already queued task by a later
`spawn_task` call are not re-checked, so the task can still be dispatched
before such a predecessor is terminal. -/
theorem c4_amended_enqueue_time_dependency_order (wf : Workflow)
    (hn : (wf.tasks.map Prod.fst).Nodup) (ops : List OrchOp) (p c : String) :
    Event.enqViolation p c ∉ (execOps (register_workflow wf) ops).events :=
  (inv_execOps ops _ (inv_register wf hn)).no_enq_violation p c

theorem c4_amended_enqueue_time_dependency_order_witness :
    Event.enqViolation "A" "B" ∉
      (execOps (register_workflow c4wWf) [OrchOp.opRun "W" [] 4]).events :=
  c4_amended_enqueue_time_dependency_order c4wWf (by decide)
    [OrchOp.opRun "W" [] 4] "A" "B"

/-! ## Claim C7: terminal statuses

`complete_task` and `spawn_parallel` do respect terminal statuses, but the
`except` branch of `task_runner` writes `failed` unconditionally, which
overwrites `done` when the body completed its own task and then raised. -/

/-- C7 counterexample: in the concrete run of `c7Wf`, task `X` first
reaches the terminal status `done` (written by `complete_task` from inside
its body) and is then flipped to `failed` by the `task_runner` failure
handler, ending the run with status `failed`. -/
theorem c7_counterexample_done_overwritten_by_task_runner :
    Event.statusChange "complete_task" "X" .running .done ∈ c7Run.events ∧
    Event.statusChange "task_runner_fail" "X" .done .failed ∈ c7Run.events ∧
    c7Run.statusOf "X" = .failed := by
  refine ⟨?_, ?_, ?_⟩ <;> decide

/-- C7 (amended): over any sequence of public operations on a freshly
registered workflow with unique task ids, the only status change out of a
terminal status is the `task_runner` exception handler overwriting `done`
with `failed` (reachable when a body completes its own task and then
raises); in particular `failed` is never left, and a task's recorded
output is never overwritten. -/
theorem c7_amended_terminal_stickiness (wf : Workflow)
    (hn : (wf.tasks.map Prod.fst).Nodup) (ops : List OrchOp) :
    (∀ site t oldS newS,
      Event.statusChange site t oldS newS ∈
        (execOps (register_workflow wf) ops).events →
      oldS.terminal = true →
      oldS = .done ∧ newS = .failed ∧ site = "task_runner_fail") ∧
    (∀ t, Event.outputOverwrite t ∉
      (execOps (register_workflow wf) ops).events) := by
  have h := inv_execOps ops _ (inv_register wf hn)
  exact ⟨h.terminal_sticky, h.no_overwrite⟩

theorem c7_amended_terminal_stickiness_witness :
    Event.outputOverwrite "A" ∉
      (execOps (register_workflow c7wWf) [OrchOp.opRun "W" [] 4]).events :=
  (c7_amended_terminal_stickiness c7wWf (by decide) [OrchOp.opRun "W" [] 4]).2 "A"

/-! ## Claim C1: what `run_workflow` raises

The abort raised by `spawn_task` inside a task body is caught by
`task_runner`'s blanket `except Exception`, which marks the task `failed`
and returns normally, so the abort never propagates out of the dispatcher:
`run_workflow` raises only its two entry errors. -/

/-- The scheduling loop exits through its `all(...)` check — in which case
every registered task is terminal — runs out of fuel, or propagates the
`ValueError` that `run_helper` raises for a workflow with no registered
tasks; it never produces a workflow abort. -/
theorem runLoop_result (wf_id : String) :
    ∀ (fuel : Nat) (st st' : Orch) (r : RunResult),
      st.runLoop wf_id fuel = (st', r) →
      (r = .completed → st'.allTerminal = true) ∧
      (∀ e, r = .raised e →
        e = .exc "ValueError: max() arg is an empty sequence") := by
  intro fuel
  induction fuel with
  | zero =>
    intro st st' r h
    injection h with h1 h2
    subst h2
    exact ⟨(fun hc => nomatch hc), (fun e he => nomatch he)⟩
  | succ n ih =>
    intro st st' r h
    dsimp only [Orch.runLoop] at h
    rcases hH : st.run_helper wf_id (Nat.succ n) with ⟨st1, eo⟩
    cases eo with
    | some e2 =>
      simp only [hH] at h
      injection h with h1 h2
      subst h2
      obtain ⟨hE, -⟩ := run_helper_raise st wf_id (Nat.succ n) st1 e2 hH
      refine ⟨(fun hc => nomatch hc), (fun e he => ?_)⟩
      injection he with he2
      rw [← he2]
      exact hE
    | none =>
      simp only [hH] at h
      rcases Bool.eq_false_or_eq_true st1.allTerminal with hb | hb
      · rw [hb, if_pos rfl] at h
        injection h with h1 h2
        subst h1
        subst h2
        exact ⟨(fun hc => hb), (fun e he => nomatch he)⟩
      · rw [hb] at h
        rw [if_neg (by simp)] at h
        exact ih _ _ _ h

/-- C1 counterexample: in the concrete run of `c1Wf`, the spawn made from
`X`'s body violates `X`'s quota and raises the workflow abort (the
`abortRaised` event is in the log and `X` ends `failed`), yet
`run_workflow` returns `completed` rather than raising: `task_runner`
swallowed the abort. -/
theorem c1_counterexample_abort_swallowed_by_task_runner :
    c1Pair.2 = .completed ∧
    Event.abortRaised (abortMsg "W" "Task X exceeded spawn count") ∈
      c1Pair.1.events ∧
    c1Pair.1.statusOf "X" = .failed := by
  refine ⟨?_, ?_, ?_⟩ <;> decide

/-- C1 (amended): `run_workflow` never raises a workflow abort — any abort
raised by `spawn_task` inside a task body is caught by `task_runner`, which
marks the task `failed` and returns, and the loop continues; whenever
`run_workflow` returns `completed`, every registered task is terminal; and
the only exceptions it can raise are its two entry errors and, for a
registered workflow with no tasks, the `ValueError` raised by `max()` over
the empty per-task generator in `run_helper`. -/
theorem c1_amended_run_workflow_never_raises_abort (st : Orch)
    (wf_id : String) (input : List (String × Value)) (fuel : Nat) :
    (∀ m, (st.run_workflow wf_id input fuel).2 ≠ .raised (.abortExc m)) ∧
    ((st.run_workflow wf_id input fuel).2 = .completed →
      (st.run_workflow wf_id input fuel).1.allTerminal = true) ∧
    (∀ e, (st.run_workflow wf_id input fuel).2 = .raised e →
      e = .exc s!"No workflow {wf_id}" ∨
      e = .exc s!"Workflow {wf_id} is already running a scheduling loop." ∨
      e = .exc "ValueError: max() arg is an empty sequence") := by
  unfold Orch.run_workflow
  split_ifs with h1 h2
  · refine ⟨fun m hm => by simp at hm, fun hc => by simp at hc,
      fun e he => ?_⟩
    injection he with he2
    exact Or.inl he2.symm
  · refine ⟨fun m hm => by simp at hm, fun hc => by simp at hc,
      fun e he => ?_⟩
    injection he with he2
    exact Or.inr (Or.inl he2.symm)
  · dsimp only
    rcases hL : (Orch.runLoop _ wf_id fuel) with ⟨st3, r⟩
    have hres := runLoop_result wf_id fuel _ _ _ hL
    cases r with
    | completed =>
      exact ⟨fun m hm => by simp at hm, fun hc => hres.1 rfl,
        fun e he => by simp at he⟩
    | raised e2 =>
      have hE := hres.2 e2 rfl
      refine ⟨fun m hm => ?_, fun hc => by simp at hc, fun e he => ?_⟩
      · injection hm with hm2
        rw [hE] at hm2
        cases hm2
      · injection he with he2
        rw [← he2]
        exact Or.inr (Or.inr hE)
    | outOfFuel =>
      exact ⟨fun m hm => by simp at hm, fun hc => by simp at hc,
        fun e he => by simp at he⟩

theorem c1_amended_run_workflow_never_raises_abort_witness :
    ((register_workflow c1wWf).run_workflow "W" [] 4).1.allTerminal = true :=
  (c1_amended_run_workflow_never_raises_abort
    (register_workflow c1wWf) "W" [] 4).2.1 (by decide)

/-! ## Claim C6: the spawn quota -/

/-- C6: (i) over any sequence of public operations on a freshly registered
workflow with unique task ids, for every registered task whose constraints
set `max_spawn_count = k` with `k ≥ 0`, the number of successful
`spawn_task` calls naming it as creator never exceeds `k`; (ii) every
successful `spawn_task` call increments the creator's stored spawn count by
exactly one; (iii) a call made when the creator's stored count has reached
its quota raises the "exceeded spawn count" abort and leaves the task list
unchanged — the new task is not inserted. -/
theorem c6_spawn_quota :
    (∀ (wf : Workflow), (wf.tasks.map Prod.fst).Nodup →
      ∀ (ops : List OrchOp) (t : String) (task : Task) (k : Int),
      (t, task) ∈ (execOps (register_workflow wf) ops).wf.tasks →
      task.constraints.max_spawn_count = some k → 0 ≤ k →
      (succCount (execOps (register_workflow wf) ops) t : Int) ≤ k) ∧
    (∀ (st : Orch) (wf_id creator : String) (nt : Task)
       (ne : List (String × String)) (inp : Option Value) (skipv : Bool)
       (st' : Orch),
      st.spawn_task wf_id creator nt ne inp skipv = (st', none) →
      st'.countOf creator = st.countOf creator + 1) ∧
    (∀ (st : Orch) (wf_id creator : String) (nt : Task)
       (ne : List (String × String)) (inp : Option Value) (skipv : Bool)
       (st' : Orch) (e : Option PyExc) (creator_obj : Task) (k : Int),
      st.spawn_task wf_id creator nt ne inp skipv = (st', e) →
      alookup st.wf.tasks creator = some creator_obj →
      creator_obj.constraints.max_spawn_count = some k →
      k ≤ (st.countOf creator : Int) →
      e = some (.abortExc
        (abortMsg wf_id s!"Task {creator} exceeded spawn count")) ∧
      st'.wf.tasks = st.wf.tasks) := by
  refine ⟨?_, ?_, ?_⟩
  · intro wf hn ops t task k hmem hk h0
    have h := inv_execOps ops _ (inv_register wf hn)
    have hsc := h.succ_le_count t
    rcases h.count_le_max t task hmem k hk with hle | h0c
    · calc (succCount (execOps (register_workflow wf) ops) t : Int)
          ≤ ((execOps (register_workflow wf) ops).countOf t : Int) := by
            exact_mod_cast hsc
        _ ≤ k := hle
    · have hz : succCount (execOps (register_workflow wf) ops) t = 0 := by
        omega
      rw [hz]
      exact_mod_cast h0
  · intro st wf_id creator nt ne inp skipv st' h
    unfold Orch.spawn_task at h
    split at h
    case h_1 =>
      exfalso
      injection h with h1 h2
      cases h2
    case h_2 creator_obj hcre =>
      split at h
      · exfalso; injection h with h1 h2; cases h2
      · split at h
        · exfalso; injection h with h1 h2; cases h2
        · split at h
          · exfalso; injection h with h1 h2; cases h2
          · rename_i hdup
            have hcrmem : creator ∈ st.taskIds :=
              (alookup_isSome_iff_mem st.wf.tasks creator).mp (by rw [hcre]; rfl)
            have hcrne : creator ≠ nt.task_id := by
              intro he
              exact hdup ((alookup_isSome_iff_mem st.wf.tasks nt.task_id).mpr
                (he ▸ hcrmem))
            rcases hAN : Orch.addNewEdges (st.spawnInsert creator nt skipv)
                wf_id creator nt.task_id ne with ⟨st7, e7⟩
            cases e7 with
            | some e7v =>
              exfalso
              simp only [hAN] at h
              injection h with h1 h2
              cases h2
            | none =>
              simp only [hAN] at h
              rcases Bool.eq_false_or_eq_true
                  (is_directed_acyclic_graph (st7.wf.tasks.map Prod.fst)
                    st7.wf.edges) with hacy | hacy
              · rw [hacy] at h
                simp only [Bool.not_true] at h
                rw [if_neg (by simp)] at h
                injection h with h1 h2
                obtain ⟨-, -, -, g4, -, -, -, -, -, -⟩ :=
                  addNewEdges_ok wf_id creator nt.task_id ne _ _ hAN
                have hc7 : st7.countOf creator = st.countOf creator + 1 := by
                  unfold Orch.countOf
                  rw [g4]
                  exact spawnInsert_countOf_creator st creator nt skipv hcrne
                rw [← h1]
                cases inp with
                | none => exact hc7
                | some d =>
                  dsimp only
                  rcases Bool.eq_false_or_eq_true
                      (st7.wf.edges.any fun e => e.2 == nt.task_id) with hq | hq
                  · rw [hq, if_pos rfl]
                    exact hc7
                  · rw [hq]
                    rw [if_neg (by simp)]
                    exact hc7
              · exfalso
                rw [hacy] at h
                simp only [Bool.not_false, if_pos] at h
                injection h with h1 h2
                cases h2
  · intro st wf_id creator nt ne inp skipv st' e creator_obj k h hcre hk hge
    unfold Orch.spawn_task at h
    split at h
    case h_1 hnone =>
      rw [hcre] at hnone
      cases hnone
    case h_2 creator_obj2 hcre2 =>
      rw [hcre] at hcre2
      injection hcre2 with hcre2
      subst hcre2
      split at h
      · injection h with h1 h2
        subst h1
        subst h2
        obtain ⟨hf1, -, hf3, -, -⟩ := fail_workflow_effects st wf_id _
        constructor
        · rw [hf1]
        · rw [hf3]
      · rename_i hguard
        exfalso
        rw [hk] at hguard
        exact hguard (decide_eq_true hge)

theorem c6_spawn_quota_witness :
    (succCount (execOps (register_workflow c6Wf) []) "X" : Int) ≤ 1 :=
  c6_spawn_quota.1 c6Wf (by decide) [] "X" c6TaskX 1
    (List.mem_singleton.mpr rfl) rfl (by decide)

/-! ## Claim C8: input assembly at discovery -/

/-- C8: `(t, ins)` is produced by the discovery pass exactly when `t` is a
registered task that is still `pending`, every predecessor of `t` is
terminal (`done` or `failed` both qualify, so a failed predecessor does not
block dispatch), and `ins` is the spec-described input sequence
(`specInputs`): the predecessors' outputs in edge-insertion order, omitting
every predecessor whose output is absent or not truthy. -/
theorem c8_input_assembly (st : Orch) (t : String) (ins : List Value) :
    (t, ins) ∈ st.discover ↔
      (t ∈ st.taskIds ∧ st.statusOf t = .pending ∧
       (∀ p ∈ predsOf st.wf.edges t, (st.statusOf p).terminal = true) ∧
       ins = specInputs st t) := by
  unfold Orch.discover
  constructor
  · intro hmem
    rcases List.mem_filterMap.mp hmem with ⟨q, hq, hq2⟩
    dsimp only at hq2
    split_ifs at hq2 with h1 h2
    · injection hq2 with hq3
      injection hq3 with ha hb
      subst ha
      subst hb
      refine ⟨List.mem_map.mpr ⟨q, hq, rfl⟩, h1, ?_, rfl⟩
      intro p hp
      unfold Orch.allPredsDone at h2
      rw [List.all_eq_true] at h2
      have h3 := h2 p hp
      rw [Bool.not_eq_true'] at h3
      exact terminal_of_not_pending_running _ (of_decide_eq_false h3)
  · rintro ⟨hmem, hpend, hterm, hins⟩
    rcases List.mem_map.mp hmem with ⟨q, hq, hq1⟩
    refine List.mem_filterMap.mpr ⟨q, hq, ?_⟩
    dsimp only
    rw [hq1]
    rw [if_pos hpend]
    have hall : st.allPredsDone (predsOf st.wf.edges t) = true := by
      unfold Orch.allPredsDone
      rw [List.all_eq_true]
      intro p hp
      rw [Bool.not_eq_true']
      apply decide_eq_false
      intro hor
      have hpt := hterm p hp
      rcases hor with h | h <;> rw [h] at hpt <;> exact absurd hpt (by decide)
    rw [if_pos hall, hins]
    rfl

theorem c8_input_assembly_witness :
    ("A", ([] : List Value)) ∈ (register_workflow c8Wf).discover :=
  (c8_input_assembly (register_workflow c8Wf) "A" []).mpr
    ⟨by decide, by decide, by decide, rfl⟩

/-! ### Witness instantiations for C3, C5 and C9 -/

theorem c3_spawn_failure_aborts_workflow_witness :
    ((register_workflow c3Wf).spawn_task "W" "ghost" c3NewTask
      [] none false).1.ready_queue = [] ∧
    ((register_workflow c3Wf).spawn_task "W" "ghost" c3NewTask
      [] none false).1.running_loop = false := by
  have h := c3_spawn_failure_aborts_workflow (register_workflow c3Wf) "W"
    "ghost" c3NewTask [] none false
    ((register_workflow c3Wf).spawn_task "W" "ghost" c3NewTask [] none false).1
    (abortMsg "W" "Creator ghost not in wf W") rfl
  exact ⟨h.1, h.2.1⟩

theorem c5_graph_acyclic_after_success_witness :
    isCycleB c5Wf2.edges ["A"] = false :=
  c5_graph_acyclic_after_success.1 (Workflow.new "W") c5Task [] c5Wf2 rfl ["A"]

theorem c9_constraints_validation_witness :
    ∃ e, TaskConstraints.make c9Bad = .error e :=
  (c9_constraints_validation c9Bad).1.mpr
    (Or.inr (Or.inr (Or.inr (Or.inr (Or.inr (Or.inr (Or.inl ⟨rfl, rfl⟩)))))))

end LatchOrch
